import Mathlib

/-!
Verification of the RIFT detection engine (`backend/analyzer.py`) against its
natural-language specification.

The analyzer is embedded shallowly: the pandas dataframe becomes a list of
transaction rows, the networkx `MultiDiGraph` becomes functions derived from
that list (successor lists in first-edge-insertion order, degrees counting
parallel edges, strongly connected components as mutual-reachability classes),
and the two mutable registries become an explicit state record threaded
through the six passes.  Scores are decimals with at most four fractional
digits, so they are carried exactly as integers in hundredths of a point
(risk and suspicion scores) resp. basis points (arguments still to be
rounded), with `round(x, 2)` as half-to-even integer rounding.

Two sources of behaviour that are not functions of the input are made
explicit parameters of the model:
 * `ord : List String → List String` models the iteration order of Python
   `set` objects wherever the source iterates one (`set(G.successors(node))`,
   the `mules` sets, the stored `ring_members` sets, the `bridges` set).
   CPython's string hashing is salted per process, so this order is not a
   function of the input; the canonical instantiation `fun l => l`
   (insertion order) is one admissible order.
 * `ce : List String → List (List String)` models the library call
   `nx.simple_cycles(G.subgraph(scc), length_bound=6)`: given the member
   list of an SCC it returns the enumerated simple cycles, each a list of
   distinct nodes of length at most 6 traversed along edge direction.
-/

set_option maxRecDepth 200000

set_option maxHeartbeats 1600000

namespace Rift

/-- One validated input row (columns of the dataframe handed to
`RiftAnalyzer.__init__` by the parser; rows with missing sender, receiver,
transaction id or timestamp were dropped upstream).  Timestamps are absolute
instants in seconds; amounts are exact rationals. -/
structure Txn where
  transaction_id : String
  sender_id : String
  receiver_id : String
  amount : ℚ
  timestamp : ℤ
deriving DecidableEq, Repr

/-- Append `x` to `l` unless already present: the insertion step of a Python
`dict` key sequence / insertion-ordered set. -/
def insertUnique (l : List String) (x : String) : List String :=
  if x ∈ l then l else l ++ [x]

/-- Association-list lookup (Python `dict.__getitem__` / `.get`). -/
def lookupA {κ α : Type} [DecidableEq κ] : List (κ × α) → κ → Option α
  | [], _ => none
  | (k', v) :: t, k => if k = k' then some v else lookupA t k

/-- Association-list write with Python `dict` semantics: an existing key keeps
its position, a new key is appended. -/
def setA {κ α : Type} [DecidableEq κ] : List (κ × α) → κ → α → List (κ × α)
  | [], k, v => [(k, v)]
  | (k', v') :: t, k, v => if k = k' then (k, v) :: t else (k', v') :: setA t k v

/-- Code-point comparison of character lists (Python `str` `<`). -/
def charsLt : List Char → List Char → Bool
  | [], [] => false
  | [], _ :: _ => true
  | _ :: _, [] => false
  | a :: as, b :: bs =>
    if a.toNat < b.toNat then true
    else if b.toNat < a.toNat then false
    else charsLt as bs

/-- Python string `<=` (used by `sorted` on strings and by pandas groupby key
ordering). -/
def strLe (a b : String) : Bool := a = b || charsLt a.data b.data

/-- Is `p` a prefix of `s` (Python `str.startswith`)? -/
def charsIsPrefix : List Char → List Char → Bool
  | [], _ => true
  | _ :: _, [] => false
  | a :: as, b :: bs => a = b && charsIsPrefix as bs

/-- `_is_normal` from the source: accounts of the clean normal pool carry the
`CLN` prefix. -/
def is_normal (account_id : String) : Bool :=
  charsIsPrefix "CLN".data account_id.data

/-- Python `min` on two scores. -/
def zmin (a b : ℤ) : ℤ := if a ≤ b then a else b

/-- Python `max` on two scores. -/
def zmax (a b : ℤ) : ℤ := if a ≤ b then b else a

/-- Python `round(x, 2)` on fixed-point score values.  Every score in the
analyzer is a decimal with at most four fractional digits (a two-decimal
score possibly multiplied by `0.65`, `0.7` or `0.9`), so scores are carried
exactly: a score argument is given in basis points (`10⁻⁴` units) and the
rounded result in hundredths (`10⁻²` units, the resolution of
`round(x, 2)`).  Rounding is to nearest, ties to even, as for Python
floats whose value is an exact tie. -/
def round2 (bp : ℤ) : ℤ :=
  if bp.emod 100 < 50 then bp.ediv 100
  else if 50 < bp.emod 100 then bp.ediv 100 + 1
  else if (bp.ediv 100).emod 2 = 0 then bp.ediv 100 else bp.ediv 100 + 1

/-- Decimal digits of a natural number (auxiliary, fuel-driven so that it is
structurally recursive). -/
def natDigits : ℕ → ℕ → List Char
  | 0, _ => []
  | fuel + 1, n =>
    if n < 10 then [Char.ofNat (48 + n)]
    else natDigits fuel (n / 10) ++ [Char.ofNat (48 + n % 10)]

/-- Decimal rendering of a natural number. -/
def natToStr (n : ℕ) : String := String.mk (natDigits (n + 1) n)

/-- Python `f"{n:03}"`: zero-pad to width 3. -/
def pad3 (n : ℕ) : String :=
  let s := natToStr n
  if s.length < 3 then String.mk (List.replicate (3 - s.length) (Char.ofNat 48)) ++ s
  else s

/-! ## The transaction multigraph

`nx.from_pandas_edgelist(df, "sender_id", "receiver_id", ..., MultiDiGraph)`
adds one edge per row, in row order; nodes are registered in first-appearance
order (sender before receiver within a row), and the successor adjacency of a
node lists distinct receivers in first-edge order.  Degrees count parallel
edges separately. -/

/-- Node list of the graph in networkx insertion order. -/
def graphNodes (df : List Txn) : List String :=
  df.foldl (fun l t => insertUnique (insertUnique l t.sender_id) t.receiver_id) []

/-- Distinct successors of `u` in adjacency insertion order
(`G.successors(u)`). -/
def successors (df : List Txn) (u : String) : List String :=
  df.foldl (fun l t => if t.sender_id = u then insertUnique l t.receiver_id else l) []

/-- `G.in_degree()[u]`: number of incoming edges, parallel edges counted. -/
def inDeg (df : List Txn) (u : String) : ℕ :=
  (df.filter (fun t => t.receiver_id = u)).length

/-- `G.out_degree()[u]`: number of outgoing edges, parallel edges counted. -/
def outDeg (df : List Txn) (u : String) : ℕ :=
  (df.filter (fun t => t.sender_id = u)).length

/-- Is there at least one edge `u → v`? -/
def hasEdge (df : List Txn) (u v : String) : Bool :=
  df.any (fun t => t.sender_id = u && t.receiver_id = v)

/-- One breadth step of forward reachability: close a node set under
successors once. -/
def expandOnce (df : List Txn) (s : List String) : List String :=
  s.foldl (fun acc v => (successors df v).foldl insertUnique acc) s

/-- Iterate `expandOnce` to a fixpoint (it only ever grows, and is bounded by
the node count, so the fuel `graphNodes df |>.length` suffices). -/
def iterExpand (df : List Txn) : ℕ → List String → List String
  | 0, s => s
  | fuel + 1, s =>
    let s' := expandOnce df s
    if s'.length = s.length then s else iterExpand df fuel s'

/-- Forward reachability `u →* v` (including `u` itself). -/
def reaches (df : List Txn) (u v : String) : Bool :=
  v ∈ iterExpand df (graphNodes df).length [u]

/-- `nx.strongly_connected_components(G)`: the mutual-reachability classes.
Classes are listed by first representative in node order and each class lists
its members in node order (networkx leaves both orders unspecified; only the
partition itself is consumed by the analyzer's guards). -/
def sccsOf (df : List Txn) : List (List String) :=
  let ns := graphNodes df
  (ns.foldl
    (fun (acc : List (List String) × List String) u =>
      if u ∈ acc.2 then acc
      else
        let scc := ns.filter (fun v => reaches df u v && reaches df v u)
        (acc.1 ++ [scc], acc.2 ++ scc))
    ([], [])).1

/-! ## Records and analyzer state -/

/-- One entry of `self.suspicious_accounts` (the dict literal built in
`_update_account`). -/
structure AccountEntry where
  account_id : String
  /-- The score in hundredths (the resolution of `round(x, 2)`): a stored
  value `c` renders as the float `c / 100`. -/
  suspicion_score : ℤ
  detected_patterns : List String
  ring_id : String
  role : String
deriving DecidableEq, Repr

/-- One ring dict as built by the passes and handed to `_register_ring`.
The source constructs each ring as a dict with exactly these six keys. -/
structure Ring where
  ring_id : String
  member_accounts : List String
  pattern_type : String
  /-- The score in hundredths: a stored value `c` renders as `c / 100`. -/
  risk_score : ℤ
  bridge_nodes : List String
  overlap_with : Option String
deriving DecidableEq, Repr

/-- Values a ring dict can hold (for talking about the dict's key set). -/
inductive Val where
  | str : String → Val
  | num : ℤ → Val
  | strList : List String → Val
  | null : Val
deriving DecidableEq, Repr

/-- The ring record as the key-value dict the passes literally build: keys
`ring_id`, `member_accounts`, `pattern_type`, `risk_score`, `bridge_nodes`,
`overlap_with`, in source order, and no others. -/
def Ring.toDict (r : Ring) : List (String × Val) :=
  [("ring_id", Val.str r.ring_id),
   ("member_accounts", Val.strList r.member_accounts),
   ("pattern_type", Val.str r.pattern_type),
   ("risk_score", Val.num r.risk_score),
   ("bridge_nodes", Val.strList r.bridge_nodes),
   ("overlap_with", match r.overlap_with with
      | some s => Val.str s
      | none => Val.null)]

/-- The `summary` block of `_format_output`.  `processing_time_seconds` is
wall-clock time (`time.time() - start`) and lies outside the functional
model; every claim about the output excludes it. -/
structure Summary where
  total_accounts_analyzed : ℕ
  suspicious_accounts_flagged : ℕ
  fraud_rings_detected : ℕ
deriving DecidableEq, Repr

/-- The analyzer's structured output. -/
structure RiftOutput where
  suspicious_accounts : List AccountEntry
  fraud_rings : List Ring
  summary : Summary
deriving DecidableEq, Repr

/-- The mutable state of a `RiftAnalyzer` instance.  Python dicts become
insertion-ordered association lists, Python sets over which the source only
tests membership become insertion-ordered duplicate-free lists. -/
structure AnalyzerState where
  suspicious_accounts : List (String × AccountEntry)
  fraud_rings : List Ring
  ring_counters : List (String × ℕ)
  ring_members : List (String × List String)
  account_rings : List (String × List String)
  rings_by_type : List (String × List String)
  cycle_members : List String
deriving DecidableEq, Repr

/-- State of a freshly constructed analyzer. -/
def initState : AnalyzerState :=
  { suspicious_accounts := []
    fraud_rings := []
    ring_counters :=
      [("CYC", 1), ("FIN", 1), ("FOUT", 1), ("SHELL", 1), ("CONSOL", 1),
       ("FUNNEL", 1), ("CROSS", 1)]
    ring_members := []
    account_rings := []
    rings_by_type := []
    cycle_members := [] }

/-- `_ROLE_PRIORITY.get(role, 0)`. -/
def rolePriority (role : String) : ℕ :=
  if role = "collector" then 3
  else if role = "source" then 2
  else if role = "layer" then 1
  else 0

/-- `_update_account`: record or merge one suspicion update.  The `score`
argument is in basis points and `round(float(score), 2)` stores it in
hundredths.  A first occurrence stores the rounded score as given (no cap);
later occurrences take the maximum of stored and new rounded score, append
the pattern tag if new, and replace the role only on strictly greater
priority. -/
def update_account (s : AnalyzerState) (acc_id : String) (score : ℤ)
    (pattern rid role : String) : AnalyzerState :=
  let sc := round2 score
  match lookupA s.suspicious_accounts acc_id with
  | none =>
    { s with suspicious_accounts :=
        s.suspicious_accounts ++
          [(acc_id, { account_id := acc_id, suspicion_score := sc,
                      detected_patterns := [pattern], ring_id := rid,
                      role := role })] }
  | some ex =>
    let ex' : AccountEntry :=
      { ex with
        suspicion_score := zmax ex.suspicion_score sc
        detected_patterns :=
          if pattern ∈ ex.detected_patterns then ex.detected_patterns
          else ex.detected_patterns ++ [pattern]
        role := if rolePriority role > rolePriority ex.role then role else ex.role }
    { s with suspicious_accounts := setA s.suspicious_accounts acc_id ex' }

/-- `_register_ring`: append the ring and maintain the three indices.
`set(str(m) for m in members)` is modelled as the insertion-ordered
duplicate-free member list. -/
def register_ring (s : AnalyzerState) (r : Ring) : AnalyzerState :=
  { s with
    fraud_rings := s.fraud_rings ++ [r]
    ring_members := setA s.ring_members r.ring_id
      (r.member_accounts.foldl insertUnique [])
    account_rings := r.member_accounts.foldl
      (fun ar m => setA ar m ((lookupA ar m).getD [] ++ [r.ring_id]))
      s.account_rings
    rings_by_type := setA s.rings_by_type r.pattern_type
      ((lookupA s.rings_by_type r.pattern_type).getD [] ++ [r.ring_id]) }

/-- `_next_rid`: draw the next per-prefix counter value and format the id. -/
def next_rid (s : AnalyzerState) (p : String) : String × AnalyzerState :=
  let n := (lookupA s.ring_counters p).getD 0
  ("RING_" ++ p ++ "_" ++ pad3 n,
   { s with ring_counters := setA s.ring_counters p (n + 1) })

/-- `_cycle_peers_of`: all accounts sharing a CYC ring with `account`
(membership queries only, so the union is kept as a duplicate-free list). -/
def cycle_peers_of (s : AnalyzerState) (account : String) : List String :=
  ((lookupA s.account_rings account).getD []).foldl
    (fun peers rid =>
      if charsIsPrefix "RING_CYC".data rid.data then
        ((lookupA s.ring_members rid).getD []).foldl insertUnique peers
      else peers)
    []

/-! ## The six passes -/

/-- Sort strings ascending (Python `sorted` on `str`, pandas groupby key
order). -/
def sortStr (l : List String) : List String :=
  List.insertionSort (fun a b => strLe a b = true) l

/-- `df.groupby(key)`: keys ascending (pandas default `sort=True`), rows of
each group in original row order. -/
def groupBy (df : List Txn) (key : Txn → String) : List (String × List Txn) :=
  (sortStr ((df.map key).foldl insertUnique [])).map
    (fun k => (k, df.filter (fun t => key t = k)))

/-- Pass 1, `_detect_cycles`.  SCCs are sorted ascending by size (stable, so
ties keep enumeration order), components smaller than 3 or consisting only of
clean-pool accounts are skipped, and the per-SCC simple-cycle enumeration
`ce` is consumed with the source's guards: a cycle shorter than 3 or the
global `MAX_CYCLES = 2000` cap stops the current SCC's enumeration. -/
def detect_cycles (df : List Txn) (ce : List String → List (List String))
    (s : AnalyzerState) : AnalyzerState :=
  let sccs := List.insertionSort (fun a b => a.length ≤ b.length) (sccsOf df)
  (sccs.foldl
    (fun (p : AnalyzerState × ℕ) scc =>
      if p.2 ≥ 2000 then p
      else if scc.length < 3 then p
      else if scc.all is_normal then p
      else
        let q := (ce scc).foldl
          (fun (q : AnalyzerState × ℕ × Bool) cyc =>
            if q.2.2 then q
            else if cyc.length < 3 ∨ q.2.1 ≥ 2000 then (q.1, q.2.1, true)
            else
              let pr := next_rid q.1 "CYC"
              let score := round2 (100 * zmin 9600 (8000 + (cyc.length : ℤ) * 400))
              let members := cyc.foldl insertUnique []
              let st2 := register_ring pr.2
                { ring_id := pr.1, member_accounts := members,
                  pattern_type := "cycle", risk_score := score,
                  bridge_nodes := [], overlap_with := none }
              let st3 := members.enum.foldl
                (fun st' im => update_account st' im.2 (100 * score)
                  ("circular_routing, length_" ++ natToStr members.length)
                  pr.1 (if im.1 = 0 then "source" else "layer"))
                st2
              ({ st3 with
                  cycle_members := members.foldl insertUnique st3.cycle_members },
               q.2.1 + 1, false))
          (p.1, p.2, false)
        (q.1, q.2.1))
    (s, 0)).1

/-- The emission guard of `_detect_smurfing_fan_in` on an (already
peer-filtered) receiver group: at least 10 rows, at least 10 distinct
senders, at least 10 timestamps, and the whole group's timestamp span at
most 72 hours (259 200 s).  The upstream parser dropped rows with missing
timestamps, so `dropna` is the identity here. -/
def fanInEmits (group : List Txn) : Bool :=
  if group.length < 10 then false
  else if ((group.map Txn.sender_id).foldl insertUnique []).length < 10 then false
  else
    let ts := List.insertionSort (fun a b : ℤ => a ≤ b) (group.map Txn.timestamp)
    if ts.length < 10 then false
    else decide (ts.getLast?.getD 0 - ts.head?.getD 0 ≤ 259200)

/-- Pass 2, `_detect_smurfing_fan_in`: group by receiver; for a receiver that
is a cycle member, first drop rows whose sender is one of its cycle peers. -/
def detect_smurfing_fan_in (df : List Txn) (s : AnalyzerState) : AnalyzerState :=
  (groupBy df Txn.receiver_id).foldl
    (fun st rg =>
      let receiver := rg.1
      let group :=
        if receiver ∈ st.cycle_members then
          rg.2.filter (fun t => ¬ t.sender_id ∈ cycle_peers_of st receiver)
        else rg.2
      if fanInEmits group then
        let senders := (group.map Txn.sender_id).foldl insertUnique []
        let pr := next_rid st "FIN"
        let score := round2 (100 * zmin 9700 (6500 + (senders.length : ℤ) * 200))
        let st2 := register_ring pr.2
          { ring_id := pr.1, member_accounts := senders ++ [receiver],
            pattern_type := "smurfing_fan_in", risk_score := score,
            bridge_nodes := [], overlap_with := none }
        let st3 := senders.foldl
          (fun st' sndr => update_account st' sndr (100 * round2 (score * 65))
            "smurfing_fan_in, smurf" pr.1 "source")
          st2
        update_account st3 receiver (100 * score) "smurfing_fan_in, aggregator" pr.1
          "collector"
      else st)
    s

/-- The emission guard of `_detect_smurfing_fan_out` (mirror of
`fanInEmits` with distinct receivers). -/
def fanOutEmits (group : List Txn) : Bool :=
  if group.length < 10 then false
  else if ((group.map Txn.receiver_id).foldl insertUnique []).length < 10 then false
  else
    let ts := List.insertionSort (fun a b : ℤ => a ≤ b) (group.map Txn.timestamp)
    if ts.length < 10 then false
    else decide (ts.getLast?.getD 0 - ts.head?.getD 0 ≤ 259200)

/-- Pass 3, `_detect_smurfing_fan_out`: group by sender; for a sender that is
a cycle member, first drop rows whose receiver is one of its cycle peers. -/
def detect_smurfing_fan_out (df : List Txn) (s : AnalyzerState) : AnalyzerState :=
  (groupBy df Txn.sender_id).foldl
    (fun st rg =>
      let sender := rg.1
      let group :=
        if sender ∈ st.cycle_members then
          rg.2.filter (fun t => ¬ t.receiver_id ∈ cycle_peers_of st sender)
        else rg.2
      if fanOutEmits group then
        let receivers := (group.map Txn.receiver_id).foldl insertUnique []
        let pr := next_rid st "FOUT"
        let score := round2 (100 * zmin 9700 (6500 + (receivers.length : ℤ) * 150))
        let st2 := register_ring pr.2
          { ring_id := pr.1, member_accounts := sender :: receivers,
            pattern_type := "smurfing_fan_out", risk_score := score,
            bridge_nodes := [], overlap_with := none }
        let st3 := update_account st2 sender (100 * score) "smurfing_fan_out, hub" pr.1
          "source"
        receivers.foldl
          (fun st' rcv => update_account st' rcv (100 * round2 (score * 70))
            "smurfing_fan_out, mule" pr.1 "layer")
          st3
      else st)
    s

/-- The forward walk of `_trace_shell_chain`.  The fuel argument implements
the `while len(chain) < 50` guard: the walk is entered with fuel
`50 - len(chain) = 49`, each appended relay consumes one unit, and a
terminal hub is appended without recursing. -/
def trace_loop (df : List Txn) (visited : List String) :
    ℕ → String → List String → List String
  | 0, _, chain => chain
  | fuel + 1, curr, chain =>
    match successors df curr with
    | [nxt] =>
      if nxt ∈ chain ∨ nxt ∈ visited then chain
      else if inDeg df nxt = 1 ∧ outDeg df nxt = 1 then
        trace_loop df visited fuel nxt (chain ++ [nxt])
      else chain ++ [nxt]
    | _ => chain

/-- `_trace_shell_chain`: walk forward along unique successors; intermediate
nodes must have in-degree 1 and out-degree 1, the tail node may have any
degree and is included. -/
def trace_shell_chain (df : List Txn) (visited : List String) (start : String) :
    List String :=
  trace_loop df visited 49 start [start]

/-- Pass 4, `_detect_shell_networks`: heads have in-degree at most 1 and
out-degree exactly 1; chains shorter than 3 are skipped without marking
anything visited; all-clean chains are suppressed but marked visited. -/
def detect_shell_networks (df : List Txn) (s : AnalyzerState) : AnalyzerState :=
  ((graphNodes df).foldl
    (fun (p : AnalyzerState × List String) node =>
      if node ∈ p.2 then p
      else if inDeg df node > 1 ∨ outDeg df node ≠ 1 then p
      else
        let chain := trace_shell_chain df p.2 node
        if chain.length < 3 then p
        else if chain.all is_normal then (p.1, chain.foldl insertUnique p.2)
        else
          let pr := next_rid p.1 "SHELL"
          let score := round2 (100 * zmin 9500 (6500 + (chain.length : ℤ) * 500))
          let st2 := register_ring pr.2
            { ring_id := pr.1, member_accounts := chain,
              pattern_type := "layered_shell", risk_score := score,
              bridge_nodes := [], overlap_with := none }
          chain.enum.foldl
            (fun (q : AnalyzerState × List String) ia =>
              let role := if ia.1 = 0 then "source"
                else if ia.1 = chain.length - 1 then "collector" else "layer"
              (update_account q.1 ia.2 (100 * score)
                ("layered_shell, hops_" ++ natToStr chain.length) pr.1 role,
               insertUnique q.2 ia.2))
            (st2, p.2))
    (s, [])).1

/-- Pass 5, `_detect_consolidation_rings`.  `ordS` models the iteration
order of the Python sets `succs = set(G.successors(node))` and `mules`. -/
def detect_consolidation_rings (df : List Txn)
    (ordS : List String → List String) (s : AnalyzerState) : AnalyzerState :=
  ((graphNodes df).foldl
    (fun (p : AnalyzerState × ℕ) node =>
      if p.2 ≥ 200 then p
      else
        let succs := ordS (successors df node)
        if succs.length < 3 then p
        else
          let cm : List (String × List String) := succs.foldl
            (fun cm s' =>
              (successors df s').foldl
                (fun cm t =>
                  if t ≠ node then setA cm t ((lookupA cm t).getD [] ++ [s'])
                  else cm)
                cm)
            []
          cm.foldl
            (fun (q : AnalyzerState × ℕ) tm =>
              let mulesL := ordS tm.2
              if mulesL.length < 3 ∨ q.2 ≥ 200 then q
              else
                let is_funnel := ¬ node ∈ q.1.cycle_members
                let ptype := if is_funnel then "funnel" else "consolidation"
                let pfx := if is_funnel then "FUNNEL" else "CONSOL"
                let pr := next_rid q.1 pfx
                let score : ℤ := 9400
                let members := mulesL ++ [node, tm.1]
                let st2 := register_ring pr.2
                  { ring_id := pr.1, member_accounts := members,
                    pattern_type := ptype, risk_score := score,
                    bridge_nodes := [], overlap_with := none }
                let st3 := update_account st2 node (100 * score)
                  (ptype ++ ", hub_source") pr.1 "source"
                let st4 := update_account st3 tm.1 (100 * score)
                  (ptype ++ ", collection_sink") pr.1 "collector"
                let st5 := mulesL.foldl
                  (fun st' m => update_account st' m (100 * score) (ptype ++ ", mule")
                    pr.1 "layer")
                  st4
                (st5, q.2 + 1))
            (p.1, p.2))
    (s, 0)).1

/-- The configured overlap pairs of `_detect_cross_pattern_overlaps`. -/
def OVERLAP_PAIRS : List (String × String × String) :=
  [("smurfing_fan_in", "cycle", "smurfing_fan_in→cycle"),
   ("smurfing_fan_out", "cycle", "smurfing_fan_out→cycle"),
   ("layered_shell", "cycle", "layered_shell→cycle"),
   ("smurfing_fan_out", "layered_shell", "smurfing_fan_out→layered_shell"),
   ("consolidation", "cycle", "consolidation→cycle"),
   ("layered_shell", "smurfing_fan_in", "layered_shell→smurfing_fan_in")]

/-- Pass 6, `_detect_cross_pattern_overlaps`.  `ordS` models the iteration
order of the stored `ring_members` sets and of the `bridges` set. -/
def detect_cross_pattern_overlaps (_df : List Txn)
    (ordS : List String → List String) (s : AnalyzerState) : AnalyzerState :=
  (OVERLAP_PAIRS.foldl
    (fun (p : AnalyzerState × List (String × String × String)) pr =>
      let ta := pr.1
      let tb := pr.2.1
      let label := pr.2.2
      let rings_a := (lookupA p.1.rings_by_type ta).getD []
      let rings_b := (lookupA p.1.rings_by_type tb).getD []
      if rings_a = [] ∨ rings_b = [] then p
      else
        let acc_a : List (String × String) := rings_a.foldl
          (fun m rid =>
            (ordS ((lookupA p.1.ring_members rid).getD [])).foldl
              (fun m acc => setA m acc rid) m)
          []
        let acc_b : List (String × String) := rings_b.foldl
          (fun m rid =>
            (ordS ((lookupA p.1.ring_members rid).getD [])).foldl
              (fun m acc => setA m acc rid) m)
          []
        let bridges := ordS
          ((acc_a.map Prod.fst).filter (fun a => (lookupA acc_b a).isSome))
        if bridges = [] then p
        else
          let pair_map : List ((String × String) × List String) := bridges.foldl
            (fun pm acc =>
              match lookupA acc_a acc, lookupA acc_b acc with
              | some ra, some rb =>
                setA pm (ra, rb) ((lookupA pm (ra, rb)).getD [] ++ [acc])
              | _, _ => pm)
            []
          pair_map.foldl
            (fun (q : AnalyzerState × List (String × String × String)) kv =>
              if (kv.1.1, kv.1.2, label) ∈ q.2 then q
              else
                let seen' := q.2 ++ [(kv.1.1, kv.1.2, label)]
                let blist := kv.2
                let ma := ordS ((lookupA q.1.ring_members kv.1.1).getD [])
                let mb := ordS ((lookupA q.1.ring_members kv.1.2).getD [])
                let combined := sortStr blist
                  ++ (ma.filter (fun m => ¬ m ∈ blist)).take 10
                  ++ (mb.filter (fun m => ¬ m ∈ blist)).take 10
                let deduped := combined.foldl insertUnique []
                let pr2 := next_rid q.1 "CROSS"
                let score : ℤ := 9800
                let st1 := register_ring pr2.2
                  { ring_id := pr2.1, member_accounts := deduped,
                    pattern_type := label, risk_score := score,
                    bridge_nodes := sortStr blist,
                    overlap_with := some (kv.1.1 ++ " × " ++ kv.1.2) }
                let st2 := blist.foldl
                  (fun st' acc => update_account st' acc (100 * score)
                    ("bridge: " ++ label) pr2.1 "collector")
                  st1
                let st3 := ma.foldl
                  (fun st' acc =>
                    if acc ∈ blist then st'
                    else update_account st' acc (100 * round2 (score * 90))
                      ("bridge_member: " ++ label) pr2.1 "layer")
                  st2
                let st4 := mb.foldl
                  (fun st' acc =>
                    if acc ∈ blist then st'
                    else update_account st' acc (100 * round2 (score * 90))
                      ("bridge_member: " ++ label) pr2.1 "layer")
                  st3
                (st4, seen'))
            (p.1, p.2))
    (s, [])).1

/-- `_format_output`: suspicious accounts sorted by score descending (Python
`sorted` is stable, so equal scores keep registry insertion order), rings in
registration order, and the summary counts. -/
def format_output (df : List Txn) (s : AnalyzerState) : RiftOutput :=
  { suspicious_accounts := List.insertionSort
      (fun a b : AccountEntry => b.suspicion_score ≤ a.suspicion_score)
      (s.suspicious_accounts.map Prod.snd)
    fraud_rings := s.fraud_rings
    summary :=
      { total_accounts_analyzed := (graphNodes df).length
        suspicious_accounts_flagged := s.suspicious_accounts.length
        fraud_rings_detected := s.fraud_rings.length } }

/-- The analyzer state after the six passes of `detect_patterns`. -/
def runState (df : List Txn) (ordS : List String → List String)
    (ce : List String → List (List String)) : AnalyzerState :=
  detect_cross_pattern_overlaps df ordS
    (detect_consolidation_rings df ordS
      (detect_shell_networks df
        (detect_smurfing_fan_out df
          (detect_smurfing_fan_in df
            (detect_cycles df ce initState)))))

/-- `detect_patterns`: the full pipeline on one input batch. -/
def detect_patterns (df : List Txn) (ordS : List String → List String)
    (ce : List String → List (List String)) : RiftOutput :=
  format_output df (runState df ordS ce)

/-! ## Spec-side definitions and concrete inputs -/

/-- Shorthand for an input row; the analyzer never reads `amount`, so the
concrete inputs set it to 1. -/
def mkTxn (i s r : String) (t : ℤ) : Txn :=
  { transaction_id := i, sender_id := s, receiver_id := r, amount := 1,
    timestamp := t }

/-- The insertion-order set enumeration (one admissible Python set order). -/
def idOrd : List String → List String := fun l => l

/-- A rotated set enumeration (another admissible Python set order under a
different interpreter hash seed). -/
def rotOrd : List String → List String :=
  fun l => match l with
  | [] => []
  | a :: t => t ++ [a]

/-- The simple-cycle enumeration of an acyclic graph: empty for every SCC
(all SCCs are singletons and are rejected before enumeration, so this
parameter is never consulted on acyclic inputs). -/
def ce0 : List String → List (List String) := fun _ => []

/-- Modelled from the spec (§4.10): the repository contains no Merchant
Identifier (C11) at all; this predicate renders the spec's classification
criteria with the defaults the claim names — in-degree at least 25,
out-degree at most 3, and incident-transaction timestamp span of at least
15 days (1 296 000 s) — so that the claim can be stated. -/
def isMerchant (df : List Txn) (acc : String) : Bool :=
  let mine := df.filter (fun t => t.sender_id = acc || t.receiver_id = acc)
  let ts := List.insertionSort (fun a b : ℤ => a ≤ b) (mine.map Txn.timestamp)
  decide (25 ≤ inDeg df acc) && decide (outDeg df acc ≤ 3) &&
    decide (1296000 ≤ ts.getLast?.getD 0 - ts.head?.getD 0)

/-- Modelled from the spec (§4.3 step 4): the dense-window predicate — some
72-hour sliding window contains at least `SMURF_MIN = 10` of the group's
transactions, i.e. ten consecutive sorted timestamps lie within 259 200 s. -/
def denseWindow (ts : List ℤ) : Bool :=
  let s := List.insertionSort (fun a b : ℤ => a ≤ b) ts
  (List.range s.length).any
    (fun i => decide (i + 10 ≤ s.length) &&
      decide (s.getD (i + 9) 0 - s.getD i 0 ≤ 259200))

/-- Is a string list sorted ascending (the spec's `members are sorted`)? -/
def isSortedStr : List String → Bool
  | [] => true
  | [_] => true
  | a :: b :: t => strLe a b && isSortedStr (b :: t)

/-- Is `c` a traversal of a simple cycle of the graph: at least 3 distinct
nodes, consecutive edges present, and a closing edge back to the head? -/
def isCycleList (df : List Txn) (c : List String) : Bool :=
  decide (3 ≤ c.length) && decide c.Nodup &&
    (c.zip (c.drop 1 ++ [c.headD ""])).all (fun p => hasEdge df p.1 p.2)

/-- All length-3 lists over a node list (the candidate space for simple
cycles of a 3-node component). -/
def lists3 (ns : List String) : List (List String) :=
  ns.flatMap (fun a => ns.flatMap (fun b => ns.map (fun c => [a, b, c])))

/-- Every simple-cycle traversal that `nx.simple_cycles` could emit on a
graph whose only non-trivial SCC has exactly 3 nodes: the valid cycle lists
among all length-3 candidate lists (a simple cycle has distinct nodes, so on
such a graph no longer cycle exists). -/
def candidateCycles (df : List Txn) : List (List String) :=
  (lists3 (graphNodes df)).filter (fun c => isCycleList df c)

/-- Diamond funnel input: hub `H` pays mules `M1 M2 M3`, which all remit to
collector `C` (spec scenario S4). -/
def funnelInput : List Txn :=
  [mkTxn "t1" "H" "M1" 0, mkTxn "t2" "H" "M2" 1, mkTxn "t3" "H" "M3" 2,
   mkTxn "t4" "M1" "C" 3, mkTxn "t5" "M2" "C" 4, mkTxn "t6" "M3" "C" 5]

/-- A funnel whose third mule `X` satisfies the merchant criteria: besides
`H → X → C` it receives 24 further payments from `E` spread over just under
16 days, giving it in-degree 25, out-degree 1 and a 15.97-day span. -/
def merchInput : List Txn :=
  [mkTxn "t1" "H" "M1" 0, mkTxn "t2" "H" "M2" 1, mkTxn "t3" "H" "X" 2,
   mkTxn "t4" "M1" "C" 3, mkTxn "t5" "M2" "C" 4, mkTxn "t6" "X" "C" 5] ++
  (List.range 24).map
    (fun k => mkTxn ("e" ++ natToStr k) "E" "X" (60000 * (k : ℤ)))

/-- Fan-in input: ten distinct senders pay `R` within nine hours, and an
eleventh sender pays `R` a month later.  A 72-hour window with ten
transactions exists, but the whole group spans far more than 72 hours. -/
def fanInInput : List Txn :=
  (List.range 10).map
    (fun k => mkTxn ("s" ++ natToStr k) ("S" ++ natToStr k) "R"
      (3600 * (k : ℤ))) ++
  [mkTxn "sa" "SA" "R" 2700000]

/-- A single directed triangle `A → C → B → A`. -/
def cycInput : List Txn :=
  [mkTxn "c1" "A" "C" 0, mkTxn "c2" "C" "B" 1, mkTxn "c3" "B" "A" 2]

/-- A pure shell chain `S → M1 → M2 → M3 → D` (spec scenario S3 shape). -/
def shellInput : List Txn :=
  [mkTxn "h1" "S" "M1" 0, mkTxn "h2" "M1" "M2" 1, mkTxn "h3" "M2" "M3" 2,
   mkTxn "h4" "M3" "D" 3]

/-! ## Generic lemmas about the building blocks -/

theorem foldl_induction {α β : Type} (P : β → Prop) (f : β → α → β) :
    ∀ (l : List α) (b : β), P b → (∀ b' a, a ∈ l → P b' → P (f b' a)) →
      P (l.foldl f b) := by
  intro l
  induction l with
  | nil => intro b hb _; exact hb
  | cons a t ih =>
    intro b hb hstep
    exact ih (f b a) (hstep b a (List.mem_cons_self a t) hb)
      (fun b' x hx => hstep b' x (List.mem_cons_of_mem a hx))

theorem mem_insertUnique {l : List String} {x y : String}
    (h : y ∈ insertUnique l x) : y ∈ l ∨ y = x := by
  unfold insertUnique at h
  by_cases hx : x ∈ l
  · simp [hx] at h; exact Or.inl h
  · simp [hx] at h
    rcases h with h | h
    · exact Or.inl h
    · exact Or.inr h

theorem mem_of_mem_foldl_insertUnique {l : List String} :
    ∀ {acc : List String} {y : String}, y ∈ l.foldl insertUnique acc →
      y ∈ acc ∨ y ∈ l := by
  induction l with
  | nil => intro acc y h; exact Or.inl h
  | cons a t ih =>
    intro acc y h
    rcases ih h with h' | h'
    · rcases mem_insertUnique h' with h'' | h''
      · exact Or.inl h''
      · exact Or.inr (h'' ▸ List.mem_cons_self a t)
    · exact Or.inr (List.mem_cons_of_mem a h')

theorem mem_setA {κ α : Type} [DecidableEq κ] :
    ∀ {l : List (κ × α)} {k : κ} {v : α} {p : κ × α},
      p ∈ setA l k v → p = (k, v) ∨ p ∈ l := by
  intro l
  induction l with
  | nil => intro k v p h; simp [setA] at h; exact Or.inl h
  | cons q t ih =>
    intro k v p h
    simp only [setA] at h
    by_cases hk : k = q.1
    · simp [hk] at h
      rcases h with h | h
      · exact Or.inl (by simp [h, hk])
      · exact Or.inr (List.mem_cons_of_mem q h)
    · simp [hk] at h
      rcases h with h | h
      · exact Or.inr (h ▸ List.mem_cons_self q t)
      · rcases ih h with h' | h'
        · exact Or.inl h'
        · exact Or.inr (List.mem_cons_of_mem q h')

theorem lookupA_mem {κ α : Type} [DecidableEq κ] :
    ∀ {l : List (κ × α)} {k : κ} {v : α}, lookupA l k = some v → (k, v) ∈ l := by
  intro l
  induction l with
  | nil => intro k v h; simp [lookupA] at h
  | cons q t ih =>
    intro k v h
    simp only [lookupA] at h
    by_cases hk : k = q.1
    · simp [hk] at h
      exact (by simp [hk, ← h] : (k, v) = q) ▸ List.mem_cons_self q t
    · simp [hk] at h
      exact List.mem_cons_of_mem q (ih h)

theorem lookupA_setA_self {κ α : Type} [DecidableEq κ] :
    ∀ (l : List (κ × α)) (k : κ) (v : α), lookupA (setA l k v) k = some v := by
  intro l
  induction l with
  | nil => intro k v; simp [setA, lookupA]
  | cons q t ih =>
    intro k v
    simp only [setA]
    by_cases hk : k = q.1
    · simp [hk, lookupA]
    · simp [hk, lookupA, ih]

theorem lookupA_setA_ne {κ α : Type} [DecidableEq κ] :
    ∀ (l : List (κ × α)) (k k' : κ) (v : α), k' ≠ k →
      lookupA (setA l k v) k' = lookupA l k' := by
  intro l
  induction l with
  | nil => intro k k' v hne; simp [setA, lookupA, hne]
  | cons q t ih =>
    intro k k' v hne
    simp only [setA]
    by_cases hk : k = q.1
    · simp only [hk, if_pos rfl, lookupA]
      have : ¬ k' = q.1 := fun h => hne (h.trans hk.symm)
      simp [this, hk ▸ hne]
    · simp only [if_neg hk, lookupA]
      by_cases hq : k' = q.1
      · simp [hq]
      · simp [hq, ih k k' v hne]

theorem lookupA_append_single {κ α : Type} [DecidableEq κ] :
    ∀ (l : List (κ × α)) (k k' : κ) (v : α), k' ≠ k →
      lookupA (l ++ [(k, v)]) k' = lookupA l k' := by
  intro l
  induction l with
  | nil => intro k k' v hne; simp [lookupA, hne]
  | cons q t ih =>
    intro k k' v hne
    simp only [List.cons_append, lookupA]
    by_cases hq : k' = q.1
    · simp [hq]
    · simp [hq, ih k k' v hne]

theorem round2_bounds {bp c : ℤ} (h0 : 0 ≤ bp) (hc : bp ≤ 100 * c) :
    0 ≤ round2 bp ∧ round2 bp ≤ c := by
  have hdm : 100 * (bp.ediv 100) + bp.emod 100 = bp := Int.ediv_add_emod _ _
  have hr0 : 0 ≤ bp.emod 100 := Int.emod_nonneg _ (by norm_num)
  have hr1 : bp.emod 100 < 100 := Int.emod_lt_of_pos _ (by norm_num)
  unfold round2
  split_ifs <;> constructor <;> omega

theorem round2_mul100 (x : ℤ) : round2 (100 * x) = x := by
  have hdm : 100 * ((100 * x).ediv 100) + (100 * x).emod 100 = 100 * x :=
    Int.ediv_add_emod _ _
  have hr0 : 0 ≤ (100 * x).emod 100 := Int.emod_nonneg _ (by norm_num)
  have hr1 : (100 * x).emod 100 < 100 := Int.emod_lt_of_pos _ (by norm_num)
  unfold round2
  split_ifs <;> omega

theorem zmin_bounds {a b : ℤ} (ha : 0 ≤ a) (hb : 0 ≤ b) :
    0 ≤ zmin a b ∧ zmin a b ≤ a := by
  unfold zmin; split <;> constructor <;> omega

theorem zmax_bounds {a b c : ℤ} (ha : 0 ≤ a) (ha' : a ≤ c) (hb : 0 ≤ b)
    (hb' : b ≤ c) : 0 ≤ zmax a b ∧ zmax a b ≤ c := by
  unfold zmax; split <;> constructor <;> omega

/-! ## Shape lemmas for the registry operations -/

theorem update_account_rings (s : AnalyzerState) (acc : String) (score : ℤ)
    (pattern rid role : String) :
    (update_account s acc score pattern rid role).fraud_rings = s.fraud_rings := by
  unfold update_account
  split <;> rfl

theorem update_account_cycle_members (s : AnalyzerState) (acc : String)
    (score : ℤ) (pattern rid role : String) :
    (update_account s acc score pattern rid role).cycle_members =
      s.cycle_members := by
  unfold update_account
  split <;> rfl

theorem register_ring_suspicious (s : AnalyzerState) (r : Ring) :
    (register_ring s r).suspicious_accounts = s.suspicious_accounts := rfl

theorem register_ring_rings (s : AnalyzerState) (r : Ring) :
    (register_ring s r).fraud_rings = s.fraud_rings ++ [r] := rfl

theorem register_ring_cycle_members (s : AnalyzerState) (r : Ring) :
    (register_ring s r).cycle_members = s.cycle_members := rfl

theorem next_rid_state (s : AnalyzerState) (p : String) :
    (next_rid s p).2.suspicious_accounts = s.suspicious_accounts ∧
    (next_rid s p).2.fraud_rings = s.fraud_rings ∧
    (next_rid s p).2.cycle_members = s.cycle_members := ⟨rfl, rfl, rfl⟩

/-! ## The score invariant (claim C6) -/

/-- All recorded scores lie in `[0, 100]` points, i.e. `[0, 10000]`
hundredths. -/
def ScoresOK (s : AnalyzerState) : Prop :=
  (∀ e ∈ s.suspicious_accounts,
      0 ≤ e.2.suspicion_score ∧ e.2.suspicion_score ≤ 10000) ∧
  (∀ r ∈ s.fraud_rings, 0 ≤ r.risk_score ∧ r.risk_score ≤ 10000)

theorem update_account_scoresOK {s : AnalyzerState} {acc : String} {score : ℤ}
    {pattern rid role : String} (h0 : 0 ≤ score) (h1 : score ≤ 1000000)
    (h : ScoresOK s) :
    ScoresOK (update_account s acc score pattern rid role) := by
  obtain ⟨hsu, hri⟩ := h
  have hrd : 0 ≤ round2 score ∧ round2 score ≤ 10000 :=
    round2_bounds h0 (by omega)
  unfold update_account
  split
  · -- first occurrence: entry appended
    refine ⟨?_, hri⟩
    intro e he
    rcases List.mem_append.mp he with he | he
    · exact hsu e he
    · simp only [List.mem_singleton] at he
      subst he
      exact hrd
  · -- merge: one entry replaced by a zmax of bounded scores
    next ex hl =>
      refine ⟨?_, hri⟩
      intro e he
      rcases mem_setA he with he | he
      · subst he
        have hex := hsu (acc, ex) (lookupA_mem hl)
        exact zmax_bounds hex.1 hex.2 hrd.1 hrd.2
      · exact hsu e he

theorem register_ring_scoresOK {s : AnalyzerState} {r : Ring}
    (h0 : 0 ≤ r.risk_score) (h1 : r.risk_score ≤ 10000) (h : ScoresOK s) :
    ScoresOK (register_ring s r) := by
  obtain ⟨hsu, hri⟩ := h
  refine ⟨fun e he => hsu e he, fun r' hr' => ?_⟩
  rcases List.mem_append.mp hr' with hr' | hr'
  · exact hri r' hr'
  · simp only [List.mem_singleton] at hr'
    subst hr'
    exact ⟨h0, h1⟩

theorem next_rid_scoresOK {s : AnalyzerState} (p : String) (h : ScoresOK s) :
    ScoresOK (next_rid s p).2 := h

/-- Bound for the capped base scores `round(min(cap, base + k·n), 2)`. -/
theorem capped_score_bounds {cap x : ℤ} (hcap0 : 0 ≤ cap) (hcap1 : cap ≤ 10000)
    (hx : 0 ≤ x) :
    0 ≤ round2 (100 * zmin cap x) ∧ round2 (100 * zmin cap x) ≤ 10000 := by
  rw [round2_mul100]
  have := zmin_bounds hcap0 hx
  constructor <;> omega

/-- Bound for the derived scores `round(score · k/100, 2)` with
`k ∈ {65, 70, 90}`. -/
theorem mult_score_bounds {score k : ℤ} (h0 : 0 ≤ score) (h1 : score ≤ 10000)
    (hk0 : 0 ≤ k) (hk1 : k ≤ 100) :
    0 ≤ round2 (score * k) ∧ round2 (score * k) ≤ 10000 := by
  have ha : 0 ≤ score * k := mul_nonneg h0 hk0
  have hb : score * k ≤ 100 * 10000 := by nlinarith
  exact round2_bounds ha hb

theorem detect_cycles_scoresOK (df : List Txn)
    (ce : List String → List (List String)) {s : AnalyzerState}
    (h : ScoresOK s) : ScoresOK (detect_cycles df ce s) := by
  unfold detect_cycles
  refine (foldl_induction (fun p : AnalyzerState × ℕ => ScoresOK p.1) _ _
    (s, 0) h ?_)
  intro p scc _ hp
  dsimp only
  split
  · exact hp
  · split
    · exact hp
    · split
      · exact hp
      · refine (foldl_induction
          (fun q : AnalyzerState × ℕ × Bool => ScoresOK q.1) _ _ _ hp ?_)
        intro q cyc _ hq
        dsimp only
        split
        · exact hq
        · split
          · exact hq
          · obtain ⟨hsb1, hsb2⟩ :
                0 ≤ round2 (100 * zmin 9600 (8000 + (cyc.length : ℤ) * 400)) ∧
                round2 (100 * zmin 9600 (8000 + (cyc.length : ℤ) * 400)) ≤ 10000 :=
              capped_score_bounds (by norm_num) (by norm_num) (by positivity)
            have h3 : ScoresOK ((cyc.foldl insertUnique []).enum.foldl
                (fun st' im => update_account st' im.2
                  (100 * round2 (100 * zmin 9600 (8000 + (cyc.length : ℤ) * 400)))
                  ("circular_routing, length_" ++
                    natToStr (cyc.foldl insertUnique []).length)
                  (next_rid q.1 "CYC").1 (if im.1 = 0 then "source" else "layer"))
                (register_ring (next_rid q.1 "CYC").2
                  { ring_id := (next_rid q.1 "CYC").1,
                    member_accounts := cyc.foldl insertUnique [],
                    pattern_type := "cycle",
                    risk_score :=
                      round2 (100 * zmin 9600 (8000 + (cyc.length : ℤ) * 400)),
                    bridge_nodes := [], overlap_with := none })) := by
              refine foldl_induction ScoresOK _ _ _
                (register_ring_scoresOK hsb1 hsb2 (next_rid_scoresOK _ hq)) ?_
              intro st' a _ h'
              exact update_account_scoresOK (by omega) (by omega) h'
            exact h3

theorem detect_smurfing_fan_in_scoresOK (df : List Txn) {s : AnalyzerState}
    (h : ScoresOK s) : ScoresOK (detect_smurfing_fan_in df s) := by
  unfold detect_smurfing_fan_in
  refine foldl_induction ScoresOK _ _ s h ?_
  intro st rg _ hst
  dsimp only
  generalize (if rg.1 ∈ st.cycle_members then
      rg.2.filter (fun t => ¬ t.sender_id ∈ cycle_peers_of st rg.1)
    else rg.2) = group
  split
  · obtain ⟨hsb1, hsb2⟩ :
        0 ≤ round2 (100 * zmin 9700
          (6500 + (((group.map Txn.sender_id).foldl insertUnique []).length : ℤ) * 200)) ∧
        round2 (100 * zmin 9700
          (6500 + (((group.map Txn.sender_id).foldl insertUnique []).length : ℤ) * 200)) ≤ 10000 :=
      capped_score_bounds (by norm_num) (by norm_num) (by positivity)
    apply update_account_scoresOK (by omega) (by omega)
    refine foldl_induction ScoresOK _ _ _
      (register_ring_scoresOK hsb1 hsb2 (next_rid_scoresOK _ hst)) ?_
    intro st' a _ h'
    obtain ⟨hm1, hm2⟩ := mult_score_bounds hsb1 hsb2
      (by norm_num : (0:ℤ) ≤ 65) (by norm_num)
    exact update_account_scoresOK (by omega) (by omega) h'
  · exact hst

theorem detect_smurfing_fan_out_scoresOK (df : List Txn) {s : AnalyzerState}
    (h : ScoresOK s) : ScoresOK (detect_smurfing_fan_out df s) := by
  unfold detect_smurfing_fan_out
  refine foldl_induction ScoresOK _ _ s h ?_
  intro st rg _ hst
  dsimp only
  generalize (if rg.1 ∈ st.cycle_members then
      rg.2.filter (fun t => ¬ t.receiver_id ∈ cycle_peers_of st rg.1)
    else rg.2) = group
  split
  · obtain ⟨hsb1, hsb2⟩ :
        0 ≤ round2 (100 * zmin 9700
          (6500 + (((group.map Txn.receiver_id).foldl insertUnique []).length : ℤ) * 150)) ∧
        round2 (100 * zmin 9700
          (6500 + (((group.map Txn.receiver_id).foldl insertUnique []).length : ℤ) * 150)) ≤ 10000 :=
      capped_score_bounds (by norm_num) (by norm_num) (by positivity)
    refine foldl_induction ScoresOK _ _ _
      (update_account_scoresOK (by omega) (by omega)
        (register_ring_scoresOK hsb1 hsb2 (next_rid_scoresOK _ hst))) ?_
    intro st' a _ h'
    obtain ⟨hm1, hm2⟩ := mult_score_bounds hsb1 hsb2
      (by norm_num : (0:ℤ) ≤ 70) (by norm_num)
    exact update_account_scoresOK (by omega) (by omega) h'
  · exact hst

theorem detect_shell_networks_scoresOK (df : List Txn) {s : AnalyzerState}
    (h : ScoresOK s) : ScoresOK (detect_shell_networks df s) := by
  unfold detect_shell_networks
  refine (foldl_induction (fun p : AnalyzerState × List String => ScoresOK p.1)
    _ _ (s, []) h ?_)
  intro p node _ hp
  dsimp only
  split
  · exact hp
  · split
    · exact hp
    · split
      · exact hp
      · split
        · exact hp
        · obtain ⟨hsb1, hsb2⟩ :
              0 ≤ round2 (100 * zmin 9500
                (6500 + ((trace_shell_chain df p.2 node).length : ℤ) * 500)) ∧
              round2 (100 * zmin 9500
                (6500 + ((trace_shell_chain df p.2 node).length : ℤ) * 500)) ≤ 10000 :=
            capped_score_bounds (by norm_num) (by norm_num) (by positivity)
          refine (foldl_induction
            (fun q : AnalyzerState × List String => ScoresOK q.1) _ _ _
            (register_ring_scoresOK hsb1 hsb2 (next_rid_scoresOK _ hp)) ?_)
          intro q ia _ hq
          exact update_account_scoresOK (by omega) (by omega) hq

theorem detect_consolidation_rings_scoresOK (df : List Txn)
    (ordS : List String → List String) {s : AnalyzerState}
    (h : ScoresOK s) : ScoresOK (detect_consolidation_rings df ordS s) := by
  unfold detect_consolidation_rings
  refine (foldl_induction (fun p : AnalyzerState × ℕ => ScoresOK p.1) _ _
    (s, 0) h ?_)
  intro p node _ hp
  dsimp only
  split
  · exact hp
  · split
    · exact hp
    · refine (foldl_induction (fun q : AnalyzerState × ℕ => ScoresOK q.1) _ _ _
        hp ?_)
      intro q tm _ hq
      dsimp only
      split
      · exact hq
      · refine (foldl_induction ScoresOK _ _ _
          (update_account_scoresOK (by norm_num) (by norm_num)
            (update_account_scoresOK (by norm_num) (by norm_num)
              (register_ring_scoresOK (by norm_num) (by norm_num)
                (next_rid_scoresOK _ hq)))) ?_)
        intro st' m _ h'
        exact update_account_scoresOK (by norm_num) (by norm_num) h'

theorem detect_cross_pattern_overlaps_scoresOK (df : List Txn)
    (ordS : List String → List String) {s : AnalyzerState}
    (h : ScoresOK s) : ScoresOK (detect_cross_pattern_overlaps df ordS s) := by
  unfold detect_cross_pattern_overlaps
  refine (foldl_induction
    (fun p : AnalyzerState × List (String × String × String) => ScoresOK p.1)
    _ _ (s, []) h ?_)
  intro p pr _ hp
  dsimp only
  split
  · exact hp
  · split
    · exact hp
    · refine (foldl_induction
        (fun q : AnalyzerState × List (String × String × String) =>
          ScoresOK q.1) _ _ _ hp ?_)
      intro q kv _ hq
      dsimp only
      split
      · exact hq
      · obtain ⟨hm1, hm2⟩ : 0 ≤ round2 ((9800:ℤ) * 90) ∧
            round2 ((9800:ℤ) * 90) ≤ 10000 :=
          mult_score_bounds (by norm_num) (by norm_num) (by norm_num)
            (by norm_num)
        have h1 : ScoresOK (kv.2.foldl
            (fun st' acc => update_account st' acc (100 * 9800)
              ("bridge: " ++ pr.2.2) (next_rid q.1 "CROSS").1 "collector")
            (register_ring (next_rid q.1 "CROSS").2
              { ring_id := (next_rid q.1 "CROSS").1,
                member_accounts := ((sortStr kv.2
                  ++ ((ordS ((lookupA q.1.ring_members kv.1.1).getD [])).filter
                      (fun m => ¬ m ∈ kv.2)).take 10
                  ++ ((ordS ((lookupA q.1.ring_members kv.1.2).getD [])).filter
                      (fun m => ¬ m ∈ kv.2)).take 10).foldl insertUnique []),
                pattern_type := pr.2.2, risk_score := 9800,
                bridge_nodes := sortStr kv.2,
                overlap_with := some (kv.1.1 ++ " × " ++ kv.1.2) })) := by
          refine foldl_induction ScoresOK _ _ _
            (register_ring_scoresOK (by norm_num) (by norm_num)
              (next_rid_scoresOK _ hq)) ?_
          intro st' a _ h'
          exact update_account_scoresOK (by norm_num) (by norm_num) h'
        have h2 : ∀ (l : List String) {st : AnalyzerState}, ScoresOK st →
            ScoresOK (l.foldl
              (fun st' acc =>
                if acc ∈ kv.2 then st'
                else update_account st' acc (100 * round2 (9800 * 90))
                  ("bridge_member: " ++ pr.2.2) (next_rid q.1 "CROSS").1 "layer")
              st) := by
          intro l st hst
          refine foldl_induction ScoresOK _ _ _ hst ?_
          intro st' a _ h'
          dsimp only
          split
          · exact h'
          · exact update_account_scoresOK (by omega) (by omega) h'
        exact h2 _ (h2 _ h1)

/-- The full pipeline preserves the score invariant from the empty state. -/
theorem runState_scoresOK (df : List Txn) (ordS : List String → List String)
    (ce : List String → List (List String)) :
    ScoresOK (runState df ordS ce) := by
  have h0 : ScoresOK initState :=
    ⟨fun e he => absurd he (List.not_mem_nil e),
     fun r hr => absurd hr (List.not_mem_nil r)⟩
  exact detect_cross_pattern_overlaps_scoresOK df ordS
    (detect_consolidation_rings_scoresOK df ordS
      (detect_shell_networks_scoresOK df
        (detect_smurfing_fan_out_scoresOK df
          (detect_smurfing_fan_in_scoresOK df
            (detect_cycles_scoresOK df ce h0)))))

theorem detect_patterns_susp (df : List Txn) (ordS : List String → List String)
    (ce : List String → List (List String)) :
    (detect_patterns df ordS ce).suspicious_accounts =
      List.insertionSort
        (fun a b : AccountEntry => b.suspicion_score ≤ a.suspicion_score)
        ((runState df ordS ce).suspicious_accounts.map Prod.snd) := by
  unfold detect_patterns format_output
  dsimp only

theorem detect_patterns_rings (df : List Txn) (ordS : List String → List String)
    (ce : List String → List (List String)) :
    (detect_patterns df ordS ce).fraud_rings =
      (runState df ordS ce).fraud_rings := by
  unfold detect_patterns format_output
  dsimp only

/-! ## Claim C6 -/

/-- C6: in every output — for every set-enumeration order and every
admissible cycle enumeration — every entry of `suspicious_accounts` has a
suspicion score between 0 and 100 points (0 and 10000 hundredths), and every
ring in `fraud_rings` has a risk score between 0 and 100 points.  (The code
has no `SCORE_CAP` constant; the bound holds because every emitted score is
capped by its own formula at 98 or below.) -/
theorem scores_within_bounds (df : List Txn) (ordS : List String → List String)
    (ce : List String → List (List String)) :
    (∀ e ∈ (detect_patterns df ordS ce).suspicious_accounts,
        0 ≤ e.suspicion_score ∧ e.suspicion_score ≤ 10000) ∧
    (∀ r ∈ (detect_patterns df ordS ce).fraud_rings,
        0 ≤ r.risk_score ∧ r.risk_score ≤ 10000) := by
  have hs := runState_scoresOK df ordS ce
  constructor
  · intro e he
    rw [detect_patterns_susp] at he
    have he' : e ∈ (runState df ordS ce).suspicious_accounts.map Prod.snd :=
      (List.perm_insertionSort _ _).mem_iff.mp he
    obtain ⟨p, hp, rfl⟩ := List.mem_map.mp he'
    exact hs.1 p hp
  · intro r hr
    rw [detect_patterns_rings] at hr
    exact hs.2 r hr

/-- Witness for `scores_within_bounds` at a concrete run: the merchant-mule
input flags account `X` at 94.00 points, within the bounds. -/
theorem scores_within_bounds_witness :
    ({ account_id := "X", suspicion_score := 9400,
       detected_patterns := ["funnel, mule"], ring_id := "RING_FUNNEL_001",
       role := "layer" } : AccountEntry) ∈
        (detect_patterns merchInput idOrd ce0).suspicious_accounts ∧
    (0 ≤ (9400 : ℤ) ∧ (9400 : ℤ) ≤ 10000) :=
  ⟨by decide,
   (scores_within_bounds merchInput idOrd ce0).1
     { account_id := "X", suspicion_score := 9400,
       detected_patterns := ["funnel, mule"], ring_id := "RING_FUNNEL_001",
       role := "layer" } (by decide)⟩

/-! ## Claim C7 -/

theorem lookupA_append_of_none {κ α : Type} [DecidableEq κ] :
    ∀ {l : List (κ × α)} {k : κ} (v : α), lookupA l k = none →
      lookupA (l ++ [(k, v)]) k = some v := by
  intro l
  induction l with
  | nil => intro k v _; simp [lookupA]
  | cons q t ih =>
    intro k v hl
    simp only [lookupA] at hl
    by_cases hq : k = q.1
    · simp [hq] at hl
    · simp only [List.cons_append, lookupA, if_neg hq]
      exact ih v (by simpa [hq] using hl)

/-- C7: for an account already present in the suspicion registry, an update
replaces the stored role exactly when the new role's priority is strictly
greater under `collector = 3 > source = 2 > layer = 1` (unknown roles have
priority 0); otherwise the stored role is kept. -/
theorem role_replaced_iff_higher_priority :
    rolePriority "collector" = 3 ∧ rolePriority "source" = 2 ∧
    rolePriority "layer" = 1 ∧
    ∀ (s : AnalyzerState) (acc : String) (score : ℤ)
      (pattern rid role : String) (ex : AccountEntry),
      lookupA s.suspicious_accounts acc = some ex →
      ∃ ex',
        lookupA (update_account s acc score pattern rid
          role).suspicious_accounts acc = some ex' ∧
        ex'.role = (if rolePriority ex.role < rolePriority role then role
          else ex.role) ∧
        ex'.account_id = ex.account_id := by
  refine ⟨rfl, rfl, rfl, ?_⟩
  intro s acc score pattern rid role ex hl
  unfold update_account
  rw [hl]
  exact ⟨_, lookupA_setA_self _ _ _, rfl, rfl⟩

/-- Witness for `role_replaced_iff_higher_priority`: an entry stored with
role `layer` is updated with role `collector` (priority 3 > 1), so the
stored role becomes `collector`. -/
theorem role_replaced_iff_higher_priority_witness :
    lookupA (update_account initState "A" 500000 "p0" "r0"
        "layer").suspicious_accounts "A" =
      some { account_id := "A", suspicion_score := 5000,
             detected_patterns := ["p0"], ring_id := "r0", role := "layer" } ∧
    ∃ ex',
      lookupA (update_account
        (update_account initState "A" 500000 "p0" "r0" "layer")
        "A" 300000 "p1" "r1" "collector").suspicious_accounts "A" = some ex' ∧
      ex'.role = (if rolePriority "layer" < rolePriority "collector"
        then "collector" else "layer") ∧
      ex'.account_id = "A" :=
  ⟨by decide,
   role_replaced_iff_higher_priority.2.2.2
     (update_account initState "A" 500000 "p0" "r0" "layer")
     "A" 300000 "p1" "r1" "collector"
     { account_id := "A", suspicion_score := 5000,
       detected_patterns := ["p0"], ring_id := "r0", role := "layer" }
     (by decide)⟩

/-! ## Claim C9 -/

/-- One suspicion update, as passed to `_update_account`. -/
structure Upd where
  acc : String
  score : ℤ
  pattern : String
  rid : String
  role : String
deriving DecidableEq, Repr

/-- Apply a sequence of suspicion updates to the registry. -/
def applyUpdates (s : AnalyzerState) (us : List Upd) : AnalyzerState :=
  us.foldl (fun st u => update_account st u.acc u.score u.pattern u.rid u.role) s

/-- The rounded scores of the updates addressed to `acc`, in order. -/
def scoresOf (us : List Upd) (acc : String) : List ℤ :=
  (us.filter (fun u => u.acc = acc)).map (fun u => round2 u.score)

/-- Left fold of Python `max` over a list of scores. -/
def maxFrom (a : ℤ) : List ℤ → ℤ
  | [] => a
  | h :: t => maxFrom (zmax a h) t

theorem update_account_lookup_ne {s : AnalyzerState} {acc acc' : String}
    (score : ℤ) (pattern rid role : String) (hne : acc' ≠ acc) :
    lookupA (update_account s acc score pattern rid
      role).suspicious_accounts acc' = lookupA s.suspicious_accounts acc' := by
  unfold update_account
  cases hl : lookupA s.suspicious_accounts acc with
  | none => exact lookupA_append_single _ _ _ _ hne
  | some ex => exact lookupA_setA_ne _ _ _ _ hne

theorem update_account_lookup_self_some {s : AnalyzerState} {acc : String}
    {ex : AccountEntry} (score : ℤ) (pattern rid role : String)
    (hl : lookupA s.suspicious_accounts acc = some ex) :
    ∃ ex',
      lookupA (update_account s acc score pattern rid
        role).suspicious_accounts acc = some ex' ∧
      ex'.suspicion_score = zmax ex.suspicion_score (round2 score) := by
  unfold update_account
  rw [hl]
  exact ⟨_, lookupA_setA_self _ _ _, rfl⟩

theorem update_account_lookup_self_none {s : AnalyzerState} {acc : String}
    (score : ℤ) (pattern rid role : String)
    (hl : lookupA s.suspicious_accounts acc = none) :
    ∃ ex',
      lookupA (update_account s acc score pattern rid
        role).suspicious_accounts acc = some ex' ∧
      ex'.suspicion_score = round2 score := by
  unfold update_account
  rw [hl]
  exact ⟨_, lookupA_append_of_none _ hl, rfl⟩

theorem applyUpdates_score_some :
    ∀ (us : List Upd) (s : AnalyzerState) (acc : String) (ex : AccountEntry),
      lookupA s.suspicious_accounts acc = some ex →
      ∃ ex',
        lookupA (applyUpdates s us).suspicious_accounts acc = some ex' ∧
        ex'.suspicion_score = maxFrom ex.suspicion_score (scoresOf us acc) := by
  intro us
  induction us with
  | nil => intro s acc ex hl; exact ⟨ex, hl, rfl⟩
  | cons u t ih =>
    intro s acc ex hl
    by_cases hacc : u.acc = acc
    · subst hacc
      obtain ⟨ex1, hl1, hsc1⟩ :=
        update_account_lookup_self_some u.score u.pattern u.rid u.role hl
      obtain ⟨ex', hl', hsc'⟩ := ih _ u.acc ex1 hl1
      refine ⟨ex', hl', ?_⟩
      rw [hsc', hsc1]
      have hsof : scoresOf (u :: t) u.acc =
          round2 u.score :: scoresOf t u.acc := by
        simp [scoresOf]
      rw [hsof]
      rfl
    · obtain ⟨ex', hl', hsc'⟩ := ih (update_account s u.acc u.score u.pattern
        u.rid u.role) acc ex
        (by rw [update_account_lookup_ne u.score u.pattern u.rid u.role
          (fun h => hacc h.symm)]; exact hl)
      refine ⟨ex', hl', ?_⟩
      rw [hsc']
      have hsof : scoresOf (u :: t) acc = scoresOf t acc := by
        simp [scoresOf, hacc]
      rw [hsof]

theorem applyUpdates_score_none :
    ∀ (us : List Upd) (s : AnalyzerState) (acc : String),
      lookupA s.suspicious_accounts acc = none →
      scoresOf us acc ≠ [] →
      ∃ ex',
        lookupA (applyUpdates s us).suspicious_accounts acc = some ex' ∧
        ex'.suspicion_score =
          (match scoresOf us acc with
           | [] => 0
           | h :: t => maxFrom h t) := by
  intro us
  induction us with
  | nil => intro s acc _ hne; exact absurd rfl hne
  | cons u t ih =>
    intro s acc hl hne
    by_cases hacc : u.acc = acc
    · subst hacc
      obtain ⟨ex1, hl1, hsc1⟩ :=
        update_account_lookup_self_none u.score u.pattern u.rid u.role hl
      obtain ⟨ex', hl', hsc'⟩ := applyUpdates_score_some t _ u.acc ex1 hl1
      refine ⟨ex', hl', ?_⟩
      rw [hsc', hsc1]
      have hsof : scoresOf (u :: t) u.acc =
          round2 u.score :: scoresOf t u.acc := by
        simp [scoresOf]
      rw [hsof]
    · have hsof : scoresOf (u :: t) acc = scoresOf t acc := by
        simp [scoresOf, hacc]
      have hl1 : lookupA (update_account s u.acc u.score u.pattern u.rid
          u.role).suspicious_accounts acc = none := by
        rw [update_account_lookup_ne u.score u.pattern u.rid u.role
          (fun h => hacc h.symm)]
        exact hl
      obtain ⟨ex', hl', hsc'⟩ := ih _ acc hl1 (hsof ▸ hne)
      exact ⟨ex', hl', by rw [hsc', hsof]⟩

/-- C9: starting from the empty registry, after any sequence of suspicion
updates the stored score of an account is exactly the maximum of the
rounded scores of the updates addressed to it — the registry merges by
`max` and applies no cap, not even on the first occurrence (witnessed by a
stored score above 100 points). -/
theorem registry_score_is_max_of_rounded (us : List Upd) (acc : String)
    (hne : scoresOf us acc ≠ []) :
    ∃ ex',
      lookupA (applyUpdates initState us).suspicious_accounts acc = some ex' ∧
      ex'.suspicion_score =
        (match scoresOf us acc with
         | [] => 0
         | h :: t => maxFrom h t) :=
  applyUpdates_score_none us initState acc rfl hne

/-- Witness for `registry_score_is_max_of_rounded`: two updates for `A` with
scores 150.005 (rounds half-to-even to 150.00) and 30.00; the stored score
is 150.00 — the maximum, above the spec's `SCORE_CAP` of 100. -/
theorem registry_score_is_max_of_rounded_witness :
    scoresOf [⟨"A", 1500050, "p", "r", "layer"⟩,
      ⟨"A", 300000, "q", "r2", "source"⟩] "A" ≠ [] ∧
    ∃ ex',
      lookupA (applyUpdates initState
        [⟨"A", 1500050, "p", "r", "layer"⟩,
         ⟨"A", 300000, "q", "r2", "source"⟩]).suspicious_accounts "A" =
        some ex' ∧
      ex'.suspicion_score =
        (match scoresOf [⟨"A", 1500050, "p", "r", "layer"⟩,
            (⟨"A", 300000, "q", "r2", "source"⟩ : Upd)] "A" with
         | [] => 0
         | h :: t => maxFrom h t) :=
  ⟨by decide,
   registry_score_is_max_of_rounded
     [⟨"A", 1500050, "p", "r", "layer"⟩, ⟨"A", 300000, "q", "r2", "source"⟩]
     "A" (by decide)⟩

/-! ## Claim C2 -/

/-- C2 counterexample: account `X` satisfies the merchant criteria
(in-degree 25, out-degree 1 ≤ 3, incident-transaction span about 15.97
days ≥ 15 days), yet the pipeline flags it: it is a mule of the funnel ring
and appears in `suspicious_accounts` of the final report — there is no
merchant shield anywhere in the code. -/
theorem merchant_account_flagged :
    isMerchant merchInput "X" = true ∧
    ((detect_patterns merchInput idOrd ce0).suspicious_accounts.map
      AccountEntry.account_id).contains "X" = true := by
  constructor
  · decide
  · decide

/-- C2 (amended): no suspicion update is ever suppressed — `_update_account`
unconditionally records (or merges) every account passed to it, merchant or
not; there is no merchant predicate in the pipeline. -/
theorem update_never_suppressed (s : AnalyzerState) (acc : String) (score : ℤ)
    (pattern rid role : String) :
    (lookupA (update_account s acc score pattern rid
      role).suspicious_accounts acc).isSome = true := by
  unfold update_account
  cases hl : lookupA s.suspicious_accounts acc with
  | none => rw [lookupA_append_of_none _ hl]; rfl
  | some ex => rw [lookupA_setA_self]; rfl

/-! ## Claim C1 -/

/-- C1 counterexample: the funnel input yields exactly one ring, and its
record carries no `total_amount` key at all — the passes build ring dicts
with exactly the six keys `ring_id`, `member_accounts`, `pattern_type`,
`risk_score`, `bridge_nodes`, `overlap_with`. -/
theorem funnel_ring_lacks_total_amount :
    (detect_patterns funnelInput idOrd ce0).fraud_rings.length = 1 ∧
    ((detect_patterns funnelInput idOrd ce0).fraud_rings.map
      (fun r => lookupA r.toDict "total_amount")) = [none] := by
  constructor
  · decide
  · decide

/-- C1 (amended): every ring record of every output lacks the
`total_amount` attribute; no pass computes it. -/
theorem rings_have_no_total_amount (df : List Txn)
    (ordS : List String → List String)
    (ce : List String → List (List String)) :
    ∀ r ∈ (detect_patterns df ordS ce).fraud_rings,
      lookupA r.toDict "total_amount" = none := by
  intro r _
  rfl

/-- The single ring the funnel input produces under insertion order. -/
def funnelRing : Ring :=
  { ring_id := "RING_FUNNEL_001"
    member_accounts := ["M1", "M2", "M3", "H", "C"]
    pattern_type := "funnel"
    risk_score := 9400
    bridge_nodes := []
    overlap_with := none }

/-- Witness for `rings_have_no_total_amount` at the funnel run's ring. -/
theorem rings_have_no_total_amount_witness :
    lookupA funnelRing.toDict "total_amount" = none :=
  rings_have_no_total_amount funnelInput idOrd ce0 funnelRing (by decide)

/-! ## Claim C8 -/

/-- C8: the output is not a function of the input alone — the member list
of a consolidation/funnel ring is `list(mules) + [hub, collector]` where
`mules` is a Python `set` of strings, whose iteration order depends on the
per-process hash seed.  Two admissible set-enumeration orders (insertion
order and a rotation, both permutations of the set) yield different
`fraud_rings` on the same diamond input, so two runs in processes with
different hash seeds produce different outputs. -/
theorem output_depends_on_set_enumeration_order :
    (∀ l : List String, List.Perm (rotOrd l) l) ∧
    (detect_patterns funnelInput idOrd ce0).fraud_rings ≠
      (detect_patterns funnelInput rotOrd ce0).fraud_rings := by
  constructor
  · intro l
    cases l with
    | nil => exact List.Perm.refl _
    | cons a t => exact List.perm_append_singleton a t
  · decide

/-! ## Shell-chain trace bounds (claim C10) and ring provenance -/

theorem nodup_append_singleton {l : List String} {a : String} (h : l.Nodup)
    (ha : ¬ a ∈ l) : (l ++ [a]).Nodup := by
  rw [List.nodup_append]
  refine ⟨h, List.nodup_singleton a, ?_⟩
  intro x hx hg
  rw [List.mem_singleton] at hg
  exact ha (hg ▸ hx)

theorem trace_loop_length (df : List Txn) (visited : List String) :
    ∀ (fuel : ℕ) (curr : String) (chain : List String),
      (trace_loop df visited fuel curr chain).length ≤ chain.length + fuel := by
  intro fuel
  induction fuel with
  | zero => intro curr chain; simp [trace_loop]
  | succ fuel ih =>
    intro curr chain
    unfold trace_loop
    rcases h : successors df curr with _ | ⟨nxt, _ | ⟨b, bs⟩⟩
    · dsimp only; omega
    · dsimp only
      split_ifs with h1 h2
      · omega
      · have := ih nxt (chain ++ [nxt])
        simp only [List.length_append, List.length_singleton] at this ⊢
        omega
      · simp only [List.length_append, List.length_singleton]
        omega
    · dsimp only; omega

theorem trace_loop_nodup (df : List Txn) (visited : List String) :
    ∀ (fuel : ℕ) (curr : String) (chain : List String), chain.Nodup →
      (trace_loop df visited fuel curr chain).Nodup := by
  intro fuel
  induction fuel with
  | zero => intro curr chain hch; simpa [trace_loop] using hch
  | succ fuel ih =>
    intro curr chain hch
    unfold trace_loop
    rcases h : successors df curr with _ | ⟨nxt, _ | ⟨b, bs⟩⟩
    · exact hch
    · dsimp only
      split_ifs with h1 h2
      · exact hch
      · exact ih nxt (chain ++ [nxt])
          (nodup_append_singleton hch (fun hm => h1 (Or.inl hm)))
      · exact nodup_append_singleton hch (fun hm => h1 (Or.inl hm))
    · exact hch

theorem trace_shell_chain_length (df : List Txn) (visited : List String)
    (start : String) : (trace_shell_chain df visited start).length ≤ 50 := by
  have := trace_loop_length df visited 49 start [start]
  simpa [trace_shell_chain] using this

theorem trace_shell_chain_nodup (df : List Txn) (visited : List String)
    (start : String) : (trace_shell_chain df visited start).Nodup := by
  exact trace_loop_nodup df visited 49 start [start] (List.nodup_singleton _)

theorem foldl_insertUnique_of_nodup :
    ∀ (l acc : List String), l.Nodup → (∀ x ∈ l, ¬ x ∈ acc) →
      l.foldl insertUnique acc = acc ++ l := by
  intro l
  induction l with
  | nil => intro acc _ _; simp
  | cons a t ih =>
    intro acc hnd hdis
    have hna : ¬ a ∈ acc := hdis a (List.mem_cons_self a t)
    have h1 : insertUnique acc a = acc ++ [a] := by simp [insertUnique, hna]
    have h2 : ∀ x ∈ t, ¬ x ∈ acc ++ [a] := by
      intro x hx hmem
      rcases List.mem_append.mp hmem with hmem | hmem
      · exact hdis x (List.mem_cons_of_mem a hx) hmem
      · rw [List.mem_singleton] at hmem
        exact (List.nodup_cons.mp hnd).1 (hmem ▸ hx)
    calc (a :: t).foldl insertUnique acc = t.foldl insertUnique (acc ++ [a]) := by
          rw [List.foldl_cons, h1]
      _ = (acc ++ [a]) ++ t := ih (acc ++ [a]) (List.nodup_cons.mp hnd).2 h2
      _ = acc ++ a :: t := by simp

/-- Provenance invariant: every registered ring is either one of the `base`
rings or satisfies `Q`. -/
def RingsFrom (base : List Ring) (Q : Ring → Prop) (s : AnalyzerState) : Prop :=
  ∀ r ∈ s.fraud_rings, r ∈ base ∨ Q r

theorem RingsFrom_update {base : List Ring} {Q : Ring → Prop}
    {s : AnalyzerState} (acc : String) (score : ℤ) (pattern rid role : String)
    (h : RingsFrom base Q s) :
    RingsFrom base Q (update_account s acc score pattern rid role) := by
  intro r hr
  rw [update_account_rings] at hr
  exact h r hr

theorem RingsFrom_next_rid {base : List Ring} {Q : Ring → Prop}
    {s : AnalyzerState} (p : String) (h : RingsFrom base Q s) :
    RingsFrom base Q (next_rid s p).2 := h

theorem RingsFrom_register {base : List Ring} {Q : Ring → Prop}
    {s : AnalyzerState} {r : Ring} (h : RingsFrom base Q s) (hr : Q r) :
    RingsFrom base Q (register_ring s r) := by
  intro r' hr'
  rw [register_ring_rings] at hr'
  rcases List.mem_append.mp hr' with hr' | hr'
  · exact h r' hr'
  · rw [List.mem_singleton] at hr'
    exact Or.inr (hr' ▸ hr)

theorem detect_cycles_ringsFrom (df : List Txn)
    (ce : List String → List (List String)) {base : List Ring}
    {Q : Ring → Prop} {s : AnalyzerState}
    (hce : ∀ scc c, c ∈ ce scc → c.Nodup ∧ c.length ≤ 6)
    (hQ : ∀ r : Ring, r.pattern_type = "cycle" →
      3 ≤ r.member_accounts.length → r.member_accounts.length ≤ 6 → Q r)
    (h : RingsFrom base Q s) : RingsFrom base Q (detect_cycles df ce s) := by
  unfold detect_cycles
  refine (foldl_induction (fun p : AnalyzerState × ℕ => RingsFrom base Q p.1)
    _ _ (s, 0) h ?_)
  intro p scc _ hp
  dsimp only
  split
  · exact hp
  · split
    · exact hp
    · split
      · exact hp
      · refine (foldl_induction
          (fun q : AnalyzerState × ℕ × Bool => RingsFrom base Q q.1) _ _ _
          hp ?_)
        intro q cyc hcyc hq
        dsimp only
        split
        · exact hq
        · split
          · exact hq
          · next hguard =>
            have hc := hce scc cyc hcyc
            have hmem : cyc.foldl insertUnique [] = cyc := by
              have := foldl_insertUnique_of_nodup cyc [] hc.1
                (fun x _ hx => absurd hx (List.not_mem_nil x))
              simpa using this
            have hlen3 : 3 ≤ cyc.length := by omega
            refine (foldl_induction (fun st : AnalyzerState =>
              RingsFrom base Q st) _ _ _ ?_ ?_)
            · refine RingsFrom_register (RingsFrom_next_rid _ hq) ?_
              refine hQ _ rfl ?_ ?_ <;> dsimp only <;> rw [hmem]
              · exact hlen3
              · exact hc.2
            · intro st' a _ h'
              exact RingsFrom_update _ _ _ _ _ h'

theorem detect_smurfing_fan_in_ringsFrom (df : List Txn) {base : List Ring}
    {Q : Ring → Prop} {s : AnalyzerState}
    (hQ : ∀ r : Ring, r.pattern_type = "smurfing_fan_in" → Q r)
    (h : RingsFrom base Q s) :
    RingsFrom base Q (detect_smurfing_fan_in df s) := by
  unfold detect_smurfing_fan_in
  refine foldl_induction (RingsFrom base Q) _ _ s h ?_
  intro st rg _ hst
  dsimp only
  generalize (if rg.1 ∈ st.cycle_members then
      rg.2.filter (fun t => ¬ t.sender_id ∈ cycle_peers_of st rg.1)
    else rg.2) = group
  split
  · refine RingsFrom_update _ _ _ _ _ ?_
    refine (foldl_induction (RingsFrom base Q) _ _ _
      (RingsFrom_register (RingsFrom_next_rid _ hst) (hQ _ rfl)) ?_)
    intro st' a _ h'
    exact RingsFrom_update _ _ _ _ _ h'
  · exact hst

theorem detect_smurfing_fan_out_ringsFrom (df : List Txn) {base : List Ring}
    {Q : Ring → Prop} {s : AnalyzerState}
    (hQ : ∀ r : Ring, r.pattern_type = "smurfing_fan_out" → Q r)
    (h : RingsFrom base Q s) :
    RingsFrom base Q (detect_smurfing_fan_out df s) := by
  unfold detect_smurfing_fan_out
  refine foldl_induction (RingsFrom base Q) _ _ s h ?_
  intro st rg _ hst
  dsimp only
  generalize (if rg.1 ∈ st.cycle_members then
      rg.2.filter (fun t => ¬ t.receiver_id ∈ cycle_peers_of st rg.1)
    else rg.2) = group
  split
  · refine (foldl_induction (RingsFrom base Q) _ _ _
      (RingsFrom_update _ _ _ _ _
        (RingsFrom_register (RingsFrom_next_rid _ hst) (hQ _ rfl))) ?_)
    intro st' a _ h'
    exact RingsFrom_update _ _ _ _ _ h'
  · exact hst

theorem detect_shell_networks_ringsFrom (df : List Txn) {base : List Ring}
    {Q : Ring → Prop} {s : AnalyzerState}
    (hQ : ∀ r : Ring, r.pattern_type = "layered_shell" →
      r.member_accounts.length ≤ 50 → Q r)
    (h : RingsFrom base Q s) :
    RingsFrom base Q (detect_shell_networks df s) := by
  unfold detect_shell_networks
  refine (foldl_induction
    (fun p : AnalyzerState × List String => RingsFrom base Q p.1) _ _
    (s, []) h ?_)
  intro p node _ hp
  dsimp only
  split
  · exact hp
  · split
    · exact hp
    · split
      · exact hp
      · split
        · exact hp
        · refine (foldl_induction
            (fun q : AnalyzerState × List String => RingsFrom base Q q.1)
            _ _ _ ?_ ?_)
          · refine RingsFrom_register (RingsFrom_next_rid _ hp) ?_
            exact hQ _ rfl (trace_shell_chain_length df p.2 node)
          · intro q ia _ hq
            exact RingsFrom_update _ _ _ _ _ hq

theorem detect_cross_pattern_overlaps_ringsFrom (df : List Txn)
    (ordS : List String → List String) {base : List Ring} {Q : Ring → Prop}
    {s : AnalyzerState}
    (hQ : ∀ r : Ring, (∃ pr ∈ OVERLAP_PAIRS, r.pattern_type = pr.2.2) → Q r)
    (h : RingsFrom base Q s) :
    RingsFrom base Q (detect_cross_pattern_overlaps df ordS s) := by
  unfold detect_cross_pattern_overlaps
  refine (foldl_induction
    (fun p : AnalyzerState × List (String × String × String) =>
      RingsFrom base Q p.1) _ _ (s, []) h ?_)
  intro p pr hpr hp
  dsimp only
  split
  · exact hp
  · split
    · exact hp
    · refine (foldl_induction
        (fun q : AnalyzerState × List (String × String × String) =>
          RingsFrom base Q q.1) _ _ _ hp ?_)
      intro q kv _ hq
      dsimp only
      split
      · exact hq
      · have hbase : RingsFrom base Q (register_ring (next_rid q.1 "CROSS").2
            { ring_id := (next_rid q.1 "CROSS").1,
              member_accounts := ((sortStr kv.2
                ++ ((ordS ((lookupA q.1.ring_members kv.1.1).getD [])).filter
                    (fun m => ¬ m ∈ kv.2)).take 10
                ++ ((ordS ((lookupA q.1.ring_members kv.1.2).getD [])).filter
                    (fun m => ¬ m ∈ kv.2)).take 10).foldl insertUnique []),
              pattern_type := pr.2.2, risk_score := 9800,
              bridge_nodes := sortStr kv.2,
              overlap_with := some (kv.1.1 ++ " × " ++ kv.1.2) }) :=
          RingsFrom_register (RingsFrom_next_rid _ hq) (hQ _ ⟨pr, hpr, rfl⟩)
        have hstep : ∀ (l : List String) {st : AnalyzerState},
            RingsFrom base Q st → RingsFrom base Q (l.foldl
              (fun st' acc =>
                if acc ∈ kv.2 then st'
                else update_account st' acc (100 * round2 (9800 * 90))
                  ("bridge_member: " ++ pr.2.2) (next_rid q.1 "CROSS").1
                  "layer") st) := by
          intro l st hst
          refine foldl_induction (RingsFrom base Q) _ _ _ hst ?_
          intro st' a _ h'
          dsimp only
          split
          · exact h'
          · exact RingsFrom_update _ _ _ _ _ h'
        refine hstep _ (hstep _ ?_)
        refine (foldl_induction (RingsFrom base Q) _ _ _ hbase ?_)
        intro st' a _ h'
        exact RingsFrom_update _ _ _ _ _ h'

theorem hasEdge_of_mem_successors {df : List Txn} {u v : String}
    (h : v ∈ successors df u) : hasEdge df u v = true := by
  unfold successors at h
  have hall : ∀ x ∈ df.foldl
      (fun l t => if t.sender_id = u then insertUnique l t.receiver_id else l)
      [], hasEdge df u x = true := by
    refine foldl_induction
      (fun acc => ∀ x ∈ acc, hasEdge df u x = true) _ df [] ?_ ?_
    · intro x hx
      exact absurd hx (List.not_mem_nil x)
    · intro acc t ht hacc
      dsimp only
      split
      · next hsend =>
        intro x hx
        rcases mem_insertUnique hx with hx | hx
        · exact hacc x hx
        · subst hx
          unfold hasEdge
          refine List.any_eq_true.mpr ⟨t, ht, ?_⟩
          simp [hsend]
      · exact hacc
  exact hall v h

/-- The diamond shape of a consolidation/funnel ring (spec §4.5 and claim
C5): the members are a mule list followed by the hub and the collector, at
least 3 mules, hub distinct from collector, the graph has `hub → m` and
`m → collector` for every mule, and the pattern type is `consolidation`
exactly when the hub is a cycle member. -/
def ConsolProp (df : List Txn) (cyc : List String) (r : Ring) : Prop :=
  ∃ M hub coll, r.member_accounts = M ++ [hub, coll] ∧ 3 ≤ M.length ∧
    hub ≠ coll ∧
    (∀ m ∈ M, hasEdge df hub m = true ∧ hasEdge df m coll = true) ∧
    (r.pattern_type = "consolidation" ↔ hub ∈ cyc)

theorem detect_consolidation_rings_ringsFrom (df : List Txn)
    (ordS : List String → List String) {base : List Ring} {Q : Ring → Prop}
    {s : AnalyzerState}
    (hord : ∀ l : List String, List.Perm (ordS l) l)
    (hQ : ∀ r : Ring,
      (r.pattern_type = "consolidation" ∨ r.pattern_type = "funnel") →
      ConsolProp df s.cycle_members r → Q r)
    (h : RingsFrom base Q s) :
    RingsFrom base Q (detect_consolidation_rings df ordS s) ∧
    (detect_consolidation_rings df ordS s).cycle_members = s.cycle_members := by
  unfold detect_consolidation_rings
  refine foldl_induction
    (fun p : AnalyzerState × ℕ =>
      RingsFrom base Q p.1 ∧ p.1.cycle_members = s.cycle_members)
    _ _ _ ⟨h, rfl⟩ ?_
  intro p node _ hp
  dsimp only
  split
  · exact hp
  · split
    · exact hp
    · have hsuccs : ∀ m ∈ ordS (successors df node), hasEdge df node m = true :=
        fun m hm => hasEdge_of_mem_successors ((hord _).mem_iff.mp hm)
      have hcm : ∀ q ∈ (ordS (successors df node)).foldl
          (fun cm s' =>
            (successors df s').foldl
              (fun cm t =>
                if t ≠ node then setA cm t ((lookupA cm t).getD [] ++ [s'])
                else cm)
              cm)
          ([] : List (String × List String)),
          q.1 ≠ node ∧ ∀ m ∈ q.2,
            hasEdge df node m = true ∧ hasEdge df m q.1 = true := by
        refine foldl_induction
          (fun cm : List (String × List String) => ∀ q ∈ cm,
            q.1 ≠ node ∧ ∀ m ∈ q.2,
              hasEdge df node m = true ∧ hasEdge df m q.1 = true)
          _ _ _ ?_ ?_
        · intro q hq
          exact absurd hq (List.not_mem_nil q)
        · intro cm s' hs' hcm0
          refine foldl_induction
            (fun cm : List (String × List String) => ∀ q ∈ cm,
              q.1 ≠ node ∧ ∀ m ∈ q.2,
                hasEdge df node m = true ∧ hasEdge df m q.1 = true)
            _ _ _ hcm0 ?_
          intro cm' t ht hcm'
          dsimp only
          split
          · next hne =>
            intro q hq
            rcases mem_setA hq with hq | hq
            · subst hq
              refine ⟨hne, ?_⟩
              intro m hm
              rcases List.mem_append.mp hm with hm | hm
              · cases hlk : lookupA cm' t with
                | none => rw [hlk] at hm; exact absurd hm (List.not_mem_nil m)
                | some old =>
                  rw [hlk] at hm
                  exact (hcm' (t, old) (lookupA_mem hlk)).2 m hm
              · rw [List.mem_singleton] at hm
                subst hm
                exact ⟨hsuccs m hs', hasEdge_of_mem_successors ht⟩
            · exact hcm' q hq
          · exact hcm'
      refine foldl_induction
        (fun q : AnalyzerState × ℕ =>
          RingsFrom base Q q.1 ∧ q.1.cycle_members = s.cycle_members)
        _ _ _ hp ?_
      intro q tm htm hq
      dsimp only
      split
      · exact hq
      · next hguard =>
        have hlen : 3 ≤ (ordS tm.2).length := by omega
        have htm' := hcm tm htm
        have hmule : ∀ m ∈ ordS tm.2,
            hasEdge df node m = true ∧ hasEdge df m tm.1 = true :=
          fun m hm => htm'.2 m ((hord _).mem_iff.mp hm)
        by_cases hnodecm : node ∈ q.1.cycle_members
        · rw [if_neg (not_not_intro hnodecm), if_neg (not_not_intro hnodecm)]
          have hQr : Q (Ring.mk (next_rid q.1 "CONSOL").1
              (ordS tm.2 ++ [node, tm.1]) "consolidation" 9400 [] none) := by
            refine hQ _ (Or.inl rfl) ?_
            refine ⟨ordS tm.2, node, tm.1, rfl, hlen, Ne.symm htm'.1, hmule, ?_⟩
            exact iff_of_true rfl (hq.2 ▸ hnodecm)
          constructor
          · refine foldl_induction
              (fun st : AnalyzerState => RingsFrom base Q st) _ _ _
              (RingsFrom_update _ _ _ _ _
                (RingsFrom_update _ _ _ _ _
                  (RingsFrom_register (RingsFrom_next_rid _ hq.1) hQr))) ?_
            intro st' m _ h'
            exact RingsFrom_update _ _ _ _ _ h'
          · have hcmc : ∀ (l : List String) (st : AnalyzerState),
                ((l.foldl (fun st' m => update_account st' m (100 * 9400)
                  ("consolidation" ++ ", mule") (next_rid q.1 "CONSOL").1
                  "layer") st).cycle_members) = st.cycle_members := by
              intro l
              induction l with
              | nil => intro st; rfl
              | cons a t ih =>
                intro st
                rw [List.foldl_cons, ih, update_account_cycle_members]
            rw [hcmc, update_account_cycle_members, update_account_cycle_members,
              register_ring_cycle_members]
            exact hq.2
        · rw [if_pos hnodecm, if_pos hnodecm]
          have hQr : Q (Ring.mk (next_rid q.1 "FUNNEL").1
              (ordS tm.2 ++ [node, tm.1]) "funnel" 9400 [] none) := by
            refine hQ _ (Or.inr rfl) ?_
            refine ⟨ordS tm.2, node, tm.1, rfl, hlen,
              fun h' => htm'.1 h'.symm, hmule, ?_⟩
            exact iff_of_false (by intro hC; simp at hC) (hq.2 ▸ hnodecm)
          constructor
          · refine foldl_induction
              (fun st : AnalyzerState => RingsFrom base Q st) _ _ _
              (RingsFrom_update _ _ _ _ _
                (RingsFrom_update _ _ _ _ _
                  (RingsFrom_register (RingsFrom_next_rid _ hq.1) hQr))) ?_
            intro st' m _ h'
            exact RingsFrom_update _ _ _ _ _ h'
          · have hcmc : ∀ (l : List String) (st : AnalyzerState),
                ((l.foldl (fun st' m => update_account st' m (100 * 9400)
                  ("funnel" ++ ", mule") (next_rid q.1 "FUNNEL").1
                  "layer") st).cycle_members) = st.cycle_members := by
              intro l
              induction l with
              | nil => intro st; rfl
              | cons a t ih =>
                intro st
                rw [List.foldl_cons, ih, update_account_cycle_members]
            rw [hcmc, update_account_cycle_members, update_account_cycle_members,
              register_ring_cycle_members]
            exact hq.2

/-- Weak provenance for the cycle pass: every ring it adds has pattern type
`cycle` (no assumption on the enumerated cycles needed). -/
theorem detect_cycles_ringsFrom_ptype (df : List Txn)
    (ce : List String → List (List String)) {base : List Ring}
    {Q : Ring → Prop} {s : AnalyzerState}
    (hQ : ∀ r : Ring, r.pattern_type = "cycle" → Q r)
    (h : RingsFrom base Q s) : RingsFrom base Q (detect_cycles df ce s) := by
  unfold detect_cycles
  refine (foldl_induction (fun p : AnalyzerState × ℕ => RingsFrom base Q p.1)
    _ _ (s, 0) h ?_)
  intro p scc _ hp
  dsimp only
  split
  · exact hp
  · split
    · exact hp
    · split
      · exact hp
      · refine (foldl_induction
          (fun q : AnalyzerState × ℕ × Bool => RingsFrom base Q q.1) _ _ _
          hp ?_)
        intro q cyc _ hq
        dsimp only
        split
        · exact hq
        · split
          · exact hq
          · refine (foldl_induction (fun st : AnalyzerState =>
              RingsFrom base Q st) _ _ _
              (RingsFrom_register (RingsFrom_next_rid _ hq) (hQ _ rfl)) ?_)
            intro st' a _ h'
            exact RingsFrom_update _ _ _ _ _ h'

/-- Weak provenance for the consolidation pass: every ring it adds has
pattern type `consolidation` or `funnel`. -/
theorem detect_consolidation_ringsFrom_ptype (df : List Txn)
    (ordS : List String → List String) {base : List Ring} {Q : Ring → Prop}
    {s : AnalyzerState}
    (hQ : ∀ r : Ring,
      (r.pattern_type = "consolidation" ∨ r.pattern_type = "funnel") → Q r)
    (h : RingsFrom base Q s) :
    RingsFrom base Q (detect_consolidation_rings df ordS s) := by
  unfold detect_consolidation_rings
  refine (foldl_induction (fun p : AnalyzerState × ℕ => RingsFrom base Q p.1)
    _ _ (s, 0) h ?_)
  intro p node _ hp
  dsimp only
  split
  · exact hp
  · split
    · exact hp
    · refine (foldl_induction (fun q : AnalyzerState × ℕ => RingsFrom base Q q.1)
        _ _ _ hp ?_)
      intro q tm _ hq
      dsimp only
      split
      · exact hq
      · by_cases hnodecm : node ∈ q.1.cycle_members
        · rw [if_neg (not_not_intro hnodecm), if_neg (not_not_intro hnodecm)]
          refine (foldl_induction (fun st : AnalyzerState =>
            RingsFrom base Q st) _ _ _
            (RingsFrom_update _ _ _ _ _ (RingsFrom_update _ _ _ _ _
              (RingsFrom_register (RingsFrom_next_rid _ hq)
                (hQ _ (Or.inl rfl))))) ?_)
          intro st' m _ h'
          exact RingsFrom_update _ _ _ _ _ h'
        · rw [if_pos hnodecm, if_pos hnodecm]
          refine (foldl_induction (fun st : AnalyzerState =>
            RingsFrom base Q st) _ _ _
            (RingsFrom_update _ _ _ _ _ (RingsFrom_update _ _ _ _ _
              (RingsFrom_register (RingsFrom_next_rid _ hq)
                (hQ _ (Or.inr rfl))))) ?_)
          intro st' m _ h'
          exact RingsFrom_update _ _ _ _ _ h'

/-- The cross-pattern pass never touches `cycle_members`. -/
theorem detect_cross_cycle_members (df : List Txn)
    (ordS : List String → List String) (s : AnalyzerState) :
    (detect_cross_pattern_overlaps df ordS s).cycle_members =
      s.cycle_members := by
  unfold detect_cross_pattern_overlaps
  refine (foldl_induction
    (fun p : AnalyzerState × List (String × String × String) =>
      p.1.cycle_members = s.cycle_members) _ _ (s, []) rfl ?_)
  intro p pr _ hp
  dsimp only
  split
  · exact hp
  · split
    · exact hp
    · refine (foldl_induction
        (fun q : AnalyzerState × List (String × String × String) =>
          q.1.cycle_members = s.cycle_members) _ _ _ hp ?_)
      intro q kv _ hq
      dsimp only
      split
      · exact hq
      · refine (foldl_induction (fun st : AnalyzerState =>
          st.cycle_members = s.cycle_members) _ _ _ ?_ ?_)
        · refine (foldl_induction (fun st : AnalyzerState =>
            st.cycle_members = s.cycle_members) _ _ _ ?_ ?_)
          · refine (foldl_induction (fun st : AnalyzerState =>
              st.cycle_members = s.cycle_members) _ _ _ ?_ ?_)
            · show (register_ring _ _).cycle_members = s.cycle_members
              rw [register_ring_cycle_members]
              exact hq
            · intro st a _ h'
              show (update_account _ _ _ _ _ _).cycle_members = s.cycle_members
              rw [update_account_cycle_members]
              exact h'
          · intro st a _ h'
            dsimp only
            split
            · exact h'
            · show (update_account _ _ _ _ _ _).cycle_members = s.cycle_members
              rw [update_account_cycle_members]
              exact h'
        · intro st a _ h'
          dsimp only
          split
          · exact h'
          · show (update_account _ _ _ _ _ _).cycle_members = s.cycle_members
            rw [update_account_cycle_members]
            exact h'

/-! ## Claim C10 -/

/-- C10: the forward shell-chain trace always terminates (it is a total
function of fuel 49 beyond the head, mirroring the `while len(chain) < 50`
guard) and returns at most 50 distinct accounts; consequently every ring of
pattern type `layered_shell` in any output has at most 50 member
accounts. -/
theorem shell_chain_bounded :
    (∀ (df : List Txn) (visited : List String) (start : String),
      (trace_shell_chain df visited start).length ≤ 50 ∧
      (trace_shell_chain df visited start).Nodup) ∧
    (∀ (df : List Txn) (ordS : List String → List String)
      (ce : List String → List (List String)) (r : Ring),
      r ∈ (detect_patterns df ordS ce).fraud_rings →
      r.pattern_type = "layered_shell" → r.member_accounts.length ≤ 50) := by
  constructor
  · intro df visited start
    exact ⟨trace_shell_chain_length df visited start,
      trace_shell_chain_nodup df visited start⟩
  · intro df ordS ce r hr hpt
    rw [detect_patterns_rings] at hr
    have hlabels : ∀ pr ∈ OVERLAP_PAIRS, ¬ pr.2.2 = "layered_shell" := by decide
    have hchase : RingsFrom []
        (fun r : Ring =>
          r.pattern_type = "layered_shell" → r.member_accounts.length ≤ 50)
        (runState df ordS ce) := by
      unfold runState
      refine detect_cross_pattern_overlaps_ringsFrom df ordS ?_ ?_
      · rintro r' ⟨pr, hpr, hlab⟩ hpt'
        exact absurd (hlab ▸ hpt') (hlabels pr hpr)
      refine detect_consolidation_ringsFrom_ptype df ordS ?_ ?_
      · rintro r' (hpt' | hpt') hpt''
        · exact absurd (hpt'.symm.trans hpt'') (by decide)
        · exact absurd (hpt'.symm.trans hpt'') (by decide)
      refine detect_shell_networks_ringsFrom df ?_ ?_
      · exact fun r' _ hlen _ => hlen
      refine detect_smurfing_fan_out_ringsFrom df ?_ ?_
      · exact fun r' hpt' hpt'' => absurd (hpt'.symm.trans hpt'') (by decide)
      refine detect_smurfing_fan_in_ringsFrom df ?_ ?_
      · exact fun r' hpt' hpt'' => absurd (hpt'.symm.trans hpt'') (by decide)
      refine detect_cycles_ringsFrom_ptype df ce ?_ ?_
      · exact fun r' hpt' hpt'' => absurd (hpt'.symm.trans hpt'') (by decide)
      exact fun r' hr' => absurd hr' (List.not_mem_nil r')
    rcases hchase r hr with hmem | hQ
    · exact absurd hmem (List.not_mem_nil r)
    · exact hQ hpt

/-- The single ring the shell-chain input produces. -/
def shellRing : Ring :=
  Ring.mk "RING_SHELL_001" ["S", "M1", "M2", "M3", "D"] "layered_shell"
    9000 [] none

/-- Witness for `shell_chain_bounded`: the concrete 5-hop chain input. -/
theorem shell_chain_bounded_witness :
    ((trace_shell_chain shellInput [] "S").length ≤ 50 ∧
      (trace_shell_chain shellInput [] "S").Nodup) ∧
    shellRing.member_accounts.length ≤ 50 :=
  ⟨shell_chain_bounded.1 shellInput [] "S",
   shell_chain_bounded.2 shellInput idOrd ce0 shellRing (by decide) rfl⟩

/-! ## Claim C3 -/

/-- If at least ten timestamps all lie within one 72-hour span, then some
72-hour sliding window holds at least ten of them (take the window at the
earliest timestamp). -/
theorem denseWindow_of_span {ts0 : List ℤ} (hlen : 10 ≤ ts0.length)
    (hspan : (List.insertionSort (fun a b : ℤ => a ≤ b) ts0).getLast?.getD 0 -
      (List.insertionSort (fun a b : ℤ => a ≤ b) ts0).head?.getD 0 ≤ 259200) :
    denseWindow ts0 = true := by
  unfold denseWindow
  have hslen : (List.insertionSort (fun a b : ℤ => a ≤ b) ts0).length =
      ts0.length := (List.perm_insertionSort _ _).length_eq
  have hsorted := List.sorted_insertionSort (fun a b : ℤ => a ≤ b) ts0
  cases hs : List.insertionSort (fun a b : ℤ => a ≤ b) ts0 with
  | nil => rw [hs] at hslen; simp at hslen; omega
  | cons a t =>
    rw [hs] at hslen hsorted hspan
    have hlen' : 10 ≤ (a :: t).length := by rw [hslen]; exact hlen
    have h9lt : 9 < (a :: t).length := by omega
    have h0lt : 0 < (a :: t).length := by omega
    have hlastlt : (a :: t).length - 1 < (a :: t).length := by omega
    refine List.any_eq_true.mpr ⟨0, List.mem_range.mpr h0lt, ?_⟩
    rw [Bool.and_eq_true]
    refine ⟨decide_eq_true (by omega), decide_eq_true ?_⟩
    rw [Nat.zero_add, List.getD_eq_getElem _ _ h9lt, List.getD_eq_getElem _ _ h0lt]
    have hlastEq : (a :: t).getLast?.getD 0 =
        (a :: t).get ⟨(a :: t).length - 1, hlastlt⟩ := by
      rw [List.getLast?_eq_getLast _ (by simp), Option.getD_some,
        List.getLast_eq_getElem, List.get_eq_getElem]
    have hheadEq : (a :: t).head?.getD 0 = (a :: t).get ⟨0, h0lt⟩ := rfl
    have h9le : (a :: t).get ⟨9, h9lt⟩ ≤
        (a :: t).get ⟨(a :: t).length - 1, hlastlt⟩ :=
      hsorted.rel_get_of_le (Fin.mk_le_mk.mpr (by omega))
    rw [hlastEq, hheadEq] at hspan
    simp only [List.get_eq_getElem] at hspan h9le
    omega

/-- C3 (amended): each smurfing pass emits for a (peer-filtered) group
exactly when the group has at least 10 rows, at least 10 distinct
counterparties, at least 10 timestamps, and its whole timestamp span is at
most 72 hours — a condition strictly stronger than the spec's dense-window
rule: emission implies the existence of a 72-hour sliding window holding at
least `SMURF_MIN = 10` transactions, but not conversely. -/
theorem smurf_emission_implies_dense_window (group : List Txn) :
    (fanInEmits group = true →
      10 ≤ ((group.map Txn.sender_id).foldl insertUnique []).length ∧
      denseWindow (group.map Txn.timestamp) = true) ∧
    (fanOutEmits group = true →
      10 ≤ ((group.map Txn.receiver_id).foldl insertUnique []).length ∧
      denseWindow (group.map Txn.timestamp) = true) := by
  have hmaplen : (group.map Txn.timestamp).length = group.length :=
    List.length_map _ _
  constructor
  · intro h
    unfold fanInEmits at h
    dsimp only at h
    split_ifs at h with h1 h2 h3
    have hsortlen : (List.insertionSort (fun a b : ℤ => a ≤ b)
        (group.map Txn.timestamp)).length = (group.map Txn.timestamp).length :=
      (List.perm_insertionSort _ _).length_eq
    refine ⟨by omega, denseWindow_of_span (by omega) (of_decide_eq_true h)⟩
  · intro h
    unfold fanOutEmits at h
    dsimp only at h
    split_ifs at h with h1 h2 h3
    have hsortlen : (List.insertionSort (fun a b : ℤ => a ≤ b)
        (group.map Txn.timestamp)).length = (group.map Txn.timestamp).length :=
      (List.perm_insertionSort _ _).length_eq
    refine ⟨by omega, denseWindow_of_span (by omega) (of_decide_eq_true h)⟩

/-- Witness for `smurf_emission_implies_dense_window`: the first ten rows of
the fan-in input (all within nine hours) satisfy the emission guard, and
indeed a dense 72-hour window exists. -/
theorem smurf_emission_implies_dense_window_witness :
    fanInEmits (fanInInput.take 10) = true ∧
    (10 ≤ (((fanInInput.take 10).map Txn.sender_id).foldl
        insertUnique []).length ∧
     denseWindow ((fanInInput.take 10).map Txn.timestamp) = true) :=
  ⟨by decide,
   (smurf_emission_implies_dense_window (fanInInput.take 10)).1 (by decide)⟩

/-- C3 counterexample: for receiver `R` of `fanInInput` the whole input is
its transaction group; it has 11 ≥ 10 distinct senders and a 72-hour
sliding window holding its first ten transactions, so the claim demands a
smurfing ring — but the code compares the whole span (about 31 days) with
72 hours and emits nothing at all. -/
theorem dense_window_group_not_emitted :
    (fanInInput.all (fun t => t.receiver_id == "R")) = true ∧
    10 ≤ ((fanInInput.map Txn.sender_id).foldl insertUnique []).length ∧
    denseWindow (fanInInput.map Txn.timestamp) = true ∧
    (detect_patterns fanInInput idOrd ce0).fraud_rings = [] := by
  refine ⟨by decide, by decide, by decide, by decide⟩

/-! ## Claim C4 -/

/-- C4 (amended): under the library guarantee that every enumerated simple
cycle has distinct nodes and length at most `CYCLE_MAX = 6`, every ring of
pattern type `cycle` in the output has between 3 and 6 members.  (The
member list is the cycle in traversal order — it need not be sorted.) -/
theorem cycle_ring_length_band (df : List Txn)
    (ordS : List String → List String)
    (ce : List String → List (List String))
    (hce : ∀ scc c, c ∈ ce scc → c.Nodup ∧ c.length ≤ 6) :
    ∀ r ∈ (detect_patterns df ordS ce).fraud_rings, r.pattern_type = "cycle" →
      3 ≤ r.member_accounts.length ∧ r.member_accounts.length ≤ 6 := by
  intro r hr hpt
  rw [detect_patterns_rings] at hr
  have hlabels : ∀ pr ∈ OVERLAP_PAIRS, ¬ pr.2.2 = "cycle" := by decide
  have hchase : RingsFrom []
      (fun r : Ring => r.pattern_type = "cycle" →
        3 ≤ r.member_accounts.length ∧ r.member_accounts.length ≤ 6)
      (runState df ordS ce) := by
    unfold runState
    refine detect_cross_pattern_overlaps_ringsFrom df ordS ?_ ?_
    · rintro r' ⟨pr, hpr, hlab⟩ hpt'
      exact absurd (hlab ▸ hpt') (hlabels pr hpr)
    refine detect_consolidation_ringsFrom_ptype df ordS ?_ ?_
    · rintro r' (h' | h') hpt'
      · exact absurd (h'.symm.trans hpt') (by decide)
      · exact absurd (h'.symm.trans hpt') (by decide)
    refine detect_shell_networks_ringsFrom df ?_ ?_
    · exact fun r' h' _ hpt' => absurd (h'.symm.trans hpt') (by decide)
    refine detect_smurfing_fan_out_ringsFrom df ?_ ?_
    · exact fun r' h' hpt' => absurd (h'.symm.trans hpt') (by decide)
    refine detect_smurfing_fan_in_ringsFrom df ?_ ?_
    · exact fun r' h' hpt' => absurd (h'.symm.trans hpt') (by decide)
    refine detect_cycles_ringsFrom df ce hce ?_ ?_
    · exact fun r' _ h3 h6 _ => ⟨h3, h6⟩
    exact fun r' hr' => absurd hr' (List.not_mem_nil r')
  rcases hchase r hr with hmem | hQ
  · exact absurd hmem (List.not_mem_nil r)
  · exact hQ hpt

/-- The cycle ring the triangle input produces when the enumerator reports
the rotation starting at `A`. -/
def cycRingACB : Ring :=
  Ring.mk "RING_CYC_001" ["A", "C", "B"] "cycle" 9200 [] none

/-- Witness for `cycle_ring_length_band` at the triangle input. -/
theorem cycle_ring_length_band_witness :
    (∀ scc c, c ∈ (fun _ : List String => [["A", "C", "B"]]) scc →
      c.Nodup ∧ c.length ≤ 6) ∧
    (3 ≤ cycRingACB.member_accounts.length ∧
      cycRingACB.member_accounts.length ≤ 6) :=
  ⟨fun _ c hc => by
    rw [List.mem_singleton] at hc
    subst hc
    exact ⟨by decide, by decide⟩,
   cycle_ring_length_band cycInput idOrd (fun _ => [["A", "C", "B"]])
     (fun _ c hc => by
       rw [List.mem_singleton] at hc
       subst hc
       exact ⟨by decide, by decide⟩)
     cycRingACB (by decide) rfl⟩

/-- C4 counterexample: on the triangle `A → C → B → A` the only simple
cycles the enumerator can report are the three rotations of the triangle
(computed by filtering all length-3 candidate lists), and under every one
of them the emitted cycle ring's `member_accounts` is NOT sorted — the
claim's sortedness clause fails on the actual run. -/
theorem cycle_ring_members_unsorted :
    candidateCycles cycInput = [["A", "C", "B"], ["C", "B", "A"],
      ["B", "A", "C"]] ∧
    (candidateCycles cycInput).all (fun c =>
      (((detect_patterns cycInput idOrd (fun _ => [c])).fraud_rings.filter
          (fun r => r.pattern_type == "cycle")).length == 1) &&
      ((detect_patterns cycInput idOrd (fun _ => [c])).fraud_rings.filter
          (fun r => r.pattern_type == "cycle")).all
        (fun r => !(isSortedStr r.member_accounts))) = true := by
  refine ⟨by decide, by decide⟩

/-! ## Claim C5 -/

/-- C5: for every set-enumeration order that enumerates each set as a
permutation of its elements, every ring of pattern type `consolidation` or
`funnel` has members `M ++ [hub, collector]` with at least 3 mules, hub
distinct from collector, edges `hub → m` and `m → collector` present for
every mule, and pattern type `consolidation` exactly when the hub is in
`cycle_members`. -/
theorem consolidation_funnel_ring_shape (df : List Txn)
    (ordS : List String → List String)
    (ce : List String → List (List String))
    (hord : ∀ l : List String, List.Perm (ordS l) l) :
    ∀ r ∈ (detect_patterns df ordS ce).fraud_rings,
      (r.pattern_type = "consolidation" ∨ r.pattern_type = "funnel") →
      ConsolProp df (runState df ordS ce).cycle_members r := by
  intro r hr hor
  rw [detect_patterns_rings] at hr
  unfold runState at hr ⊢
  have hlabels : ∀ pr ∈ OVERLAP_PAIRS,
      ¬ pr.2.2 = "consolidation" ∧ ¬ pr.2.2 = "funnel" := by decide
  have hbase45 : RingsFrom []
      (fun r : Ring =>
        (r.pattern_type = "consolidation" ∨ r.pattern_type = "funnel") →
        ConsolProp df (detect_shell_networks df (detect_smurfing_fan_out df
          (detect_smurfing_fan_in df
            (detect_cycles df ce initState)))).cycle_members r)
      (detect_shell_networks df (detect_smurfing_fan_out df
        (detect_smurfing_fan_in df (detect_cycles df ce initState)))) := by
    refine detect_shell_networks_ringsFrom df ?_ ?_
    · rintro r' h' _ (h'' | h'')
      · exact absurd (h'.symm.trans h'') (by decide)
      · exact absurd (h'.symm.trans h'') (by decide)
    refine detect_smurfing_fan_out_ringsFrom df ?_ ?_
    · rintro r' h' (h'' | h'')
      · exact absurd (h'.symm.trans h'') (by decide)
      · exact absurd (h'.symm.trans h'') (by decide)
    refine detect_smurfing_fan_in_ringsFrom df ?_ ?_
    · rintro r' h' (h'' | h'')
      · exact absurd (h'.symm.trans h'') (by decide)
      · exact absurd (h'.symm.trans h'') (by decide)
    refine detect_cycles_ringsFrom_ptype df ce ?_ ?_
    · rintro r' h' (h'' | h'')
      · exact absurd (h'.symm.trans h'') (by decide)
      · exact absurd (h'.symm.trans h'') (by decide)
    exact fun r' hr' => absurd hr' (List.not_mem_nil r')
  have hpass5 := @detect_consolidation_rings_ringsFrom df ordS []
    (fun r : Ring =>
      (r.pattern_type = "consolidation" ∨ r.pattern_type = "funnel") →
      ConsolProp df (detect_shell_networks df (detect_smurfing_fan_out df
        (detect_smurfing_fan_in df
          (detect_cycles df ce initState)))).cycle_members r)
    (detect_shell_networks df (detect_smurfing_fan_out df
      (detect_smurfing_fan_in df (detect_cycles df ce initState))))
    hord (fun r' _ hcp _ => hcp) hbase45
  have hchase := detect_cross_pattern_overlaps_ringsFrom df ordS
    (fun r' hex => by
      rcases hex with ⟨pr, hpr, hlab⟩
      rintro (h'' | h'')
      · exact absurd (hlab ▸ h'') (hlabels pr hpr).1
      · exact absurd (hlab ▸ h'') (hlabels pr hpr).2)
    hpass5.1
  rw [detect_cross_cycle_members, hpass5.2]
  rcases hchase r hr with hmem | hQ
  · exact absurd hmem (List.not_mem_nil r)
  · exact hQ hor

/-- Witness for `consolidation_funnel_ring_shape` at the funnel input: the
emitted ring is `[M1, M2, M3] ++ [H, C]`, `H ≠ C`, all six edges are in the
graph, and the type is `funnel` because `H` is in no cycle. -/
theorem consolidation_funnel_ring_shape_witness :
    ConsolProp funnelInput
      (runState funnelInput idOrd ce0).cycle_members funnelRing :=
  consolidation_funnel_ring_shape funnelInput idOrd ce0
    (fun l => List.Perm.refl l) funnelRing (by decide) (Or.inr rfl)

end Rift
